import Mathlib

/-!
# SIDH isogeny signature: sign / verify orchestration (`SIDH_signature.c`)

Shallow embedding of the orchestration layer of the isogeny-based signature
scheme.  The curve arithmetic, the Keccak sponge, the compressor and the
pthread primitives live outside the file and are taken as a record of
functions (`Primitives`).  Constants supplied by the headers
(`NUM_ROUNDS`, `NWORDS_FIELD`, `NWORDS_ORDER`, `sizeof(digit_t)`) are taken
as a record (`Params`).

Byte buffers are lists of naturals.  The per-round pointer arrays of
`struct Signature` are functions from the round index.  The process-wide
variables of the file are the record `Globals`.

Modelling choices.
* A primitive is a function of its input buffers and of whether the
  `batch_struct*` it receives is NULL; it returns its status next to the
  contents of its output buffers.  The random bytes drawn by
  `KeyGeneration_A` are an explicit argument.
* The claim step of a worker (the critical section under `RLOCK`) is an
  atomic transition of `PoolState`; `run_workers` runs a pool along an
  arbitrary schedule.  The round bodies write disjoint signature slots and
  touch the shared counters only through increments, so `isogeny_sign` and
  `isogeny_verify` use the state reached at join, `run_pool`, which
  `pool_joined_shared` shows to be the same for every schedule.
* `int` counters are naturals: they are bounded by the number of rounds of a
  call.  The `unsigned int` offsets of `hashdata` wrap modulo `2^32`.
-/

set_option autoImplicit false
set_option maxRecDepth 100000

namespace SIDHSignature

/-! ## Data model -/

/-- Contents of an `unsigned char` buffer. -/
abbrev Bytes := List Nat

/-- Byte image of an element of Fp² (`f2elm_t`). -/
abbrev f2elm_t := Bytes

/-- Status codes used by the file (`return 1` is `CRYPTO_ERROR`). -/
inductive CRYPTO_STATUS where
  | CRYPTO_SUCCESS
  | CRYPTO_ERROR
  | CRYPTO_ERROR_DURING_TEST
  | CRYPTO_ERROR_INVALID_PARAMETER
  | CRYPTO_ERROR_INVALID_ORDER
  deriving DecidableEq, Repr

open CRYPTO_STATUS

/-- Projective point `(X : Z)` over Fp² (`point_proj`). -/
structure point_proj where
  X : f2elm_t
  Z : f2elm_t
  deriving DecidableEq, Repr

/-- Header constants used by the file. -/
structure Params where
  NUM_ROUNDS : Nat
  NWORDS_FIELD : Nat
  NWORDS_ORDER : Nat
  sizeof_digit_t : Nat

/-- Number of bytes of `felm_t`. -/
def Params.sizeof_felm_t (par : Params) : Nat := par.NWORDS_FIELD * par.sizeof_digit_t

/-- Number of bytes of `f2elm_t`. -/
def Params.sizeof_f2elm_t (par : Params) : Nat := 2 * par.sizeof_felm_t

/-- Number of bytes of `point_proj`. -/
def Params.sizeof_point_proj (par : Params) : Nat := 2 * par.sizeof_f2elm_t

/-- Fields of `CurveIsogenyStruct` read by the file. -/
structure CurveIsogenyStruct where
  pwordbits : Nat
  owordbits : Nat
  C : Bytes

/-- The three mutexes of the file. -/
inductive Mutex where
  | RLOCK
  | BLOCK
  | ELOCK
  deriving DecidableEq, Repr

/-- External collaborators.  A `Bool` argument named `batch` tells whether the
`batch_struct*` handed to the primitive is non-NULL.  Output buffers are
returned next to the status.

* `KeyGeneration_A priv rnd curve generateKey batch`: `priv` is the content
  of the private-key buffer on entry, `rnd` the bytes drawn from the random
  source when `generateKey` holds; returns status, private key, public key.
* `SecretAgreement_A priv pub curve batch`: status and shared secret.
* `SecretAgreement_B priv pub curve kernel wantPsiS batch`: `priv` and
  `kernel` are `none` for NULL, `wantPsiS` tells whether the ψ(S) output
  pointer is non-NULL; returns status, shared secret, ψ(S).
* `compressPsiS psiS A curve batch`: status, compressed scalars, bit.
* `decompressPsiS comp bit A curve batch`: status and the output point.
* `keccak input outlen`: digest of the `inlen` input bytes. -/
structure Primitives where
  KeyGeneration_A : Bytes → Bytes → CurveIsogenyStruct → Bool → Bool →
    CRYPTO_STATUS × Bytes × List f2elm_t
  SecretAgreement_A : Bytes → List f2elm_t → CurveIsogenyStruct → Bool →
    CRYPTO_STATUS × Bytes
  SecretAgreement_B : Option Bytes → List f2elm_t → CurveIsogenyStruct →
    Option point_proj → Bool → Bool → CRYPTO_STATUS × Bytes × point_proj
  compressPsiS : point_proj → f2elm_t → CurveIsogenyStruct → Bool →
    CRYPTO_STATUS × Bytes × Int
  decompressPsiS : Bytes → Int → f2elm_t → CurveIsogenyStruct → Bool →
    CRYPTO_STATUS × point_proj
  xTPL : point_proj → f2elm_t → f2elm_t → point_proj
  to_fp2mont : f2elm_t → f2elm_t
  from_fp2mont : f2elm_t → f2elm_t
  is_felm_zero : Bytes → Bool
  keccak : Bytes → Nat → Bytes
  pthread_mutex_init : Mutex → Int

/-- The `struct Signature` filled by the signer and read by the verifier. -/
structure Signature where
  Commitments1 : Nat → Bytes
  Commitments2 : Nat → Bytes
  HashResp : Bytes
  Randoms : Nat → Bytes
  psiS : Nat → point_proj
  compPsiS : Nat → Bytes
  compBit : Nat → Int
  compressed : Bool

/-- The `batch_struct` fields set by this file; `capacity` is the number of
elements allocated for `invArray` and for `invDest`. -/
structure batch_struct where
  batchSize : Nat
  cntr : Nat
  capacity : Nat
  deriving DecidableEq, Repr

/-- Process-wide variables of the file. -/
structure Globals where
  NUM_THREADS : Nat
  CUR_ROUND : Nat
  batchSize : Nat
  errorCount : Nat
  roundSuccess : Nat
  psiS_count : Nat
  signBatchA : Option batch_struct
  signBatchB : Option batch_struct
  verifyBatchA : Option batch_struct
  verifyBatchB : Option batch_struct
  verifyBatchC : Option batch_struct
  compressionBatch : Option batch_struct
  decompressionBatch : Option batch_struct

/-- Values of the globals at program start. -/
def Globals.initial : Globals :=
  { NUM_THREADS := 248, CUR_ROUND := 0, batchSize := 248, errorCount := 0,
    roundSuccess := 0, psiS_count := 0,
    signBatchA := none, signBatchB := none, verifyBatchA := none,
    verifyBatchB := none, verifyBatchC := none, compressionBatch := none,
    decompressionBatch := none }

/-! ## Low-level helpers -/

/-- Reduction of an `unsigned int` value. -/
def u32 (n : Nat) : Nat := n % 2 ^ 32

/-- A `calloc`ed buffer of `n` bytes. -/
def zeros (n : Nat) : Bytes := List.replicate n 0

/-- Result of `memcpy(dst + off, src, n)` on the content of `dst`, for a
destination holding `off + n` bytes and a source holding `n` bytes. -/
def memcpy (dst : Bytes) (off : Nat) (src : Bytes) (n : Nat) : Bytes :=
  dst.take off ++ src.take n ++ dst.drop (off + n)

/-- Result of `memcmp(a, b, n)`; only its being zero is ever tested. -/
def memcmp (a b : Bytes) (n : Nat) : Int :=
  if a.take n = b.take n then 0 else 1

/-- Bytes `[off, off + n)` of a buffer. -/
def buf_slice (buf : Bytes) (off n : Nat) : Bytes := (buf.drop off).take n

/-! ## hashdata -/

/-- Body of the `for` loop of `hashdata` for round `r`. -/
def hashdata_round (NUM_ROUNDS pbytes : Nat) (comm1 comm2 : Nat → Bytes)
    (data : Bytes) (r : Nat) : Bytes :=
  let data1 := memcpy data (u32 (r * 2 * pbytes)) (comm1 r) (u32 (2 * pbytes))
  memcpy data1 (u32 (NUM_ROUNDS * 2 * pbytes) + u32 (r * 2 * pbytes)) (comm2 r) (u32 (2 * pbytes))

/-- Content of `data` after the three copies of `hashdata`. -/
def hashdata_buffer (NUM_ROUNDS pbytes : Nat) (comm1 comm2 : Nat → Bytes)
    (HashResp : Bytes) (hlen : Nat) (data : Bytes) : Bytes :=
  let data1 := (List.range NUM_ROUNDS).foldl (hashdata_round NUM_ROUNDS pbytes comm1 comm2) data
  memcpy data1 (u32 (2 * NUM_ROUNDS * 2 * pbytes)) HashResp (2 * NUM_ROUNDS * hlen)

/-- The function `hashdata`: returns the contents of `data` and of `cHash`. -/
def hashdata (P : Primitives) (NUM_ROUNDS pbytes : Nat) (comm1 comm2 : Nat → Bytes)
    (HashResp : Bytes) (hlen dlen : Nat) (data : Bytes) (cHashLength : Nat) :
    Bytes × Bytes :=
  let data1 := hashdata_buffer NUM_ROUNDS pbytes comm1 comm2 HashResp hlen data
  (data1, P.keccak (data1.take dlen) cHashLength)

/-! ## Round worker pool -/

/-- State of a pool of workers sharing the round counter: the counter, the
workers that have left their loop, the claims made so far (worker, round)
in the order they were made, and the state shared by the round bodies. -/
structure PoolState (σ : Type) where
  CUR_ROUND : Nat
  stopped : List Nat
  claims : List (Nat × Nat)
  shared : σ

/-- Pool state when the orchestrator has reset the counter. -/
def PoolState.start {σ : Type} (s : σ) : PoolState σ :=
  { CUR_ROUND := 0, stopped := [], claims := [], shared := s }

/-- One turn of worker `w` among `T` workers: the critical section under
`RLOCK` (test of the counter, claim, increment), then either the exit from
the loop or the round body for the claimed index. -/
def worker_step {σ : Type} (NUM_ROUNDS T : Nat) (body : Nat → σ → σ) (w : Nat)
    (s : PoolState σ) : PoolState σ :=
  if w < T ∧ w ∉ s.stopped then
    if s.CUR_ROUND ≥ NUM_ROUNDS then
      { s with stopped := w :: s.stopped }
    else
      { s with CUR_ROUND := s.CUR_ROUND + 1,
               claims := s.claims ++ [(w, s.CUR_ROUND)],
               shared := body s.CUR_ROUND s.shared }
  else s

/-- Run of the pool along a schedule (the sequence of workers taking turns). -/
def run_workers {σ : Type} (NUM_ROUNDS T : Nat) (body : Nat → σ → σ)
    (sched : List Nat) (s : PoolState σ) : PoolState σ :=
  sched.foldl (fun st w => worker_step NUM_ROUNDS T body w st) s

/-- All `T` workers have left their loop (the joins return). -/
def all_stopped {σ : Type} (T : Nat) (s : PoolState σ) : Prop :=
  ∀ w, w < T → w ∈ s.stopped

/-- State shared by the round bodies once every worker has been joined: the
bodies run for the rounds `0 .. NUM_ROUNDS-1` in claim order when there is a
worker, and not at all otherwise (`pool_joined_shared` relates this to
`run_workers`). -/
def run_pool {σ : Type} (NUM_ROUNDS T : Nat) (body : Nat → σ → σ) (s : σ) : σ :=
  if 0 < T then (List.range NUM_ROUNDS).foldl (fun st r => body r st) s else s

/-- Value of the round counter once every worker has been joined. -/
def pool_counter (NUM_ROUNDS T : Nat) : Nat := if 0 < T then NUM_ROUNDS else 0

/-- Invariant of the worker pool started from `PoolState.start s0`. -/
def PoolInv {σ : Type} (NUM_ROUNDS T : Nat) (body : Nat → σ → σ) (s0 : σ)
    (s : PoolState σ) : Prop :=
  s.claims.map Prod.snd = List.range s.CUR_ROUND ∧
  s.CUR_ROUND ≤ NUM_ROUNDS ∧
  (∀ c, c ∈ s.claims → c.1 < T) ∧
  s.shared = (List.range s.CUR_ROUND).foldl (fun st r => body r st) s0 ∧
  (∀ w, w ∈ s.stopped → NUM_ROUNDS ≤ s.CUR_ROUND)

/-! ## Signer -/

/-- The `thread_params_sign` record (the signature it points to is threaded
through the round body). -/
structure thread_params_sign where
  CurveIsogeny : CurveIsogenyStruct
  PrivateKey : Bytes
  PublicKey : List f2elm_t
  pbytes : Nat
  obytes : Nat
  compressed : Bool

/-- A zero-initialised `point_proj`. -/
def zero_point (par : Params) : point_proj :=
  { X := zeros par.sizeof_f2elm_t, Z := zeros par.sizeof_f2elm_t }

/-- The call `KeyGeneration_A(Randoms[r], TempPubKey, .., true, signBatchA)`
of round `r`; `rng r` is what the random source yields to this round and `bA`
tells whether `signBatchA` is non-NULL. -/
def sign_keygen (P : Primitives) (tps : thread_params_sign) (rng : Nat → Bytes) (r : Nat)
    (bA : Bool) : CRYPTO_STATUS × Bytes × List f2elm_t :=
  P.KeyGeneration_A (zeros tps.obytes) (rng r) tps.CurveIsogeny true bA

/-- The value `A = to_fp2mont(TempPubKey[0])` stored as `Commitments1[r]`. -/
def sign_A (P : Primitives) (tps : thread_params_sign) (rng : Nat → Bytes) (r : Nat)
    (bA : Bool) : f2elm_t :=
  P.to_fp2mont ((sign_keygen P tps rng r bA).2.2.headD [])

/-- The call `SecretAgreement_B(PrivateKey, TempPubKey, Commitments2[r], ..,
NULL, tempPsiS, signBatchB)` of round `r`. -/
def sign_agreement (P : Primitives) (tps : thread_params_sign) (rng : Nat → Bytes) (r : Nat)
    (bA bB : Bool) : CRYPTO_STATUS × Bytes × point_proj :=
  P.SecretAgreement_B (some tps.PrivateKey) (sign_keygen P tps rng r bA).2.2 tps.CurveIsogeny
    none true bB

/-- The call `compressPsiS(tempPsiS, compPsiS[r], &compBit[r], Commitments1[r],
.., compressionBatch)` of round `r`. -/
def sign_compression (P : Primitives) (tps : thread_params_sign) (rng : Nat → Bytes)
    (r : Nat) (bA bB bK : Bool) : CRYPTO_STATUS × Bytes × Int :=
  P.compressPsiS (sign_agreement P tps rng r bA bB).2.2 (sign_A P tps rng r bA)
    tps.CurveIsogeny bK

/-- Body of the loop of `sign_thread` for the claimed round `r`. -/
def sign_round (P : Primitives) (par : Params) (tps : thread_params_sign)
    (rng : Nat → Bytes) (r : Nat) (st : Globals × Signature) : Globals × Signature :=
  let g := st.1
  let sig := st.2
  let kg := sign_keygen P tps rng r g.signBatchA.isSome
  let A := sign_A P tps rng r g.signBatchA.isSome
  let sa := sign_agreement P tps rng r g.signBatchA.isSome g.signBatchB.isSome
  let tempPsiS := sa.2.2
  let sig1 : Signature :=
    { sig with
      Randoms := Function.update sig.Randoms r kg.2.1,
      Commitments1 := Function.update sig.Commitments1 r A,
      Commitments2 := Function.update sig.Commitments2 r sa.2.1,
      psiS := Function.update sig.psiS r (zero_point par),
      compressed := tps.compressed }
  if tps.compressed then
    let c := sign_compression P tps rng r g.signBatchA.isSome g.signBatchB.isSome
      g.compressionBatch.isSome
    let sig2 : Signature :=
      { sig1 with
        compPsiS := Function.update sig1.compPsiS r c.2.1,
        compBit := Function.update sig1.compBit r c.2.2 }
    if c.1 ≠ CRYPTO_SUCCESS then
      ({ g with errorCount := g.errorCount + 1 }, sig2)
    else
      (g, sig2)
  else
    (g, { sig1 with psiS := Function.update sig1.psiS r { X := tempPsiS.X, Z := tempPsiS.Z } })

/-- A freshly set up 248-element batch of the signer. -/
def sign_batch : batch_struct := { batchSize := 248, cntr := 0, capacity := 248 }

/-- Batch set-up of `isogeny_sign`. -/
def sign_setup (batched compressed : Bool) (g : Globals) : Globals :=
  if batched then
    { g with signBatchA := some sign_batch, signBatchB := some sign_batch,
             compressionBatch := if compressed then some sign_batch else none }
  else
    { g with signBatchA := none, signBatchB := none, compressionBatch := none }

/-- Body of the loop of `isogeny_sign` that fills `HashResp` for round `r`. -/
def hashresp_round (P : Primitives) (par : Params) (obytes HashLength : Nat)
    (sig : Signature) (H : Bytes) (r : Nat) : Bytes :=
  let H1 := memcpy H ((2 * r) * HashLength)
    (P.keccak ((sig.Randoms r).take obytes) HashLength) HashLength
  if sig.compressed then
    memcpy H1 ((2 * r + 1) * HashLength)
      (P.keccak ((sig.compPsiS r).take (par.sizeof_digit_t * par.NWORDS_ORDER)) HashLength)
      HashLength
  else
    memcpy H1 ((2 * r + 1) * HashLength)
      (P.keccak (((sig.psiS r).X ++ (sig.psiS r).Z).take par.sizeof_point_proj) HashLength)
      HashLength

/-- The `int DataLength` of `isogeny_sign` and `isogeny_verify`: an
`unsigned int` product plus a `size_t` product (`sizeof(uint8_t) = 1`). -/
def DataLength (NUM_ROUNDS pbytes HashLength : Nat) : Nat :=
  u32 (2 * NUM_ROUNDS * 2 * pbytes) + 2 * NUM_ROUNDS * HashLength * 1

/-- What `isogeny_sign` leaves behind: the returned status, the globals, the
signature, and the local `cHash` (which the function does not store). -/
structure SignResult where
  Status : CRYPTO_STATUS
  globals : Globals
  sig : Signature
  cHash : Bytes

/-- The `thread_params_sign` built by `isogeny_sign`. -/
def sign_params (CurveIsogeny : CurveIsogenyStruct) (PrivateKey : Bytes)
    (PublicKey : List f2elm_t) (compressed : Bool) : thread_params_sign :=
  { CurveIsogeny := CurveIsogeny, PrivateKey := PrivateKey, PublicKey := PublicKey,
    pbytes := (CurveIsogeny.pwordbits + 7) / 8, obytes := (CurveIsogeny.owordbits + 7) / 8,
    compressed := compressed }

/-- Globals and signature of `isogeny_sign` when the last `pthread_join` has
returned (both mutexes having been initialised). -/
def sign_joined (P : Primitives) (par : Params) (CurveIsogeny : CurveIsogenyStruct)
    (PrivateKey : Bytes) (PublicKey : List f2elm_t) (sig : Signature)
    (batched compressed : Bool) (rng : Nat → Bytes) (g : Globals) : Globals × Signature :=
  let tps := sign_params CurveIsogeny PrivateKey PublicKey compressed
  let g3 := sign_setup batched compressed { g with CUR_ROUND := 0, errorCount := 0 }
  let st := run_pool par.NUM_ROUNDS g3.NUM_THREADS (sign_round P par tps rng) (g3, sig)
  ({ st.1 with CUR_ROUND := pool_counter par.NUM_ROUNDS g3.NUM_THREADS }, st.2)

/-- The function `isogeny_sign`. -/
def isogeny_sign (P : Primitives) (par : Params) (CurveIsogeny : CurveIsogenyStruct)
    (PrivateKey : Bytes) (PublicKey : List f2elm_t) (sig : Signature)
    (batched compressed : Bool) (rng : Nat → Bytes) (g : Globals) : SignResult :=
  let pbytes := (CurveIsogeny.pwordbits + 7) / 8
  let obytes := (CurveIsogeny.owordbits + 7) / 8
  let g1 := { g with CUR_ROUND := 0 }
  if P.pthread_mutex_init Mutex.RLOCK ≠ 0 then
    { Status := CRYPTO_ERROR, globals := g1, sig := sig, cHash := [] }
  else
    let g2 := { g1 with errorCount := 0 }
    if P.pthread_mutex_init Mutex.ELOCK ≠ 0 then
      { Status := CRYPTO_ERROR, globals := g2, sig := sig, cHash := [] }
    else
      let st := sign_joined P par CurveIsogeny PrivateKey PublicKey sig batched compressed rng g
      let g4 := st.1
      let sig1 := st.2
      let HashLength := 32
      let H := (List.range par.NUM_ROUNDS).foldl (hashresp_round P par obytes HashLength sig1)
        (zeros (2 * par.NUM_ROUNDS * HashLength))
      let sig2 := { sig1 with HashResp := H }
      let DataLen := DataLength par.NUM_ROUNDS pbytes HashLength
      let cHashLength := par.NUM_ROUNDS / 8
      let h := hashdata P par.NUM_ROUNDS pbytes sig2.Commitments1 sig2.Commitments2
        sig2.HashResp HashLength DataLen (zeros DataLen) cHashLength
      { Status := CRYPTO_SUCCESS, globals := g4, sig := sig2, cHash := h.2 }

/-! ## Verifier -/

/-- The `thread_params_verify` record. -/
structure thread_params_verify where
  CurveIsogeny : CurveIsogenyStruct
  PublicKey : List f2elm_t
  sig : Signature
  cHashLength : Nat
  cHash : Bytes
  pbytes : Nat
  obytes : Nat
  compressed : Bool

/-- The challenge bit of round `r`: `cHash[r/8] & (1 << (r%8))`. -/
def challenge_bit (cHash : Bytes) (r : Nat) : Nat :=
  (cHash.getD (r / 8) 0) &&& (1 <<< (r % 8))

/-- The increment of `batchSize` of a batch. -/
def bump (b : batch_struct) : batch_struct := { b with batchSize := b.batchSize + 1 }

/-- The test at the end of each tripling: both Fp components of `Z` vanish. -/
def Z_is_zero (P : Primitives) (par : Params) (T : point_proj) : Bool :=
  P.is_felm_zero (buf_slice T.Z 0 par.sizeof_felm_t) &&
    P.is_felm_zero (buf_slice T.Z par.sizeof_felm_t par.sizeof_felm_t)

/-- The tripling loop `for (t=0; t<238; t++)` with `n` iterations left,
starting at iteration `t`: returns the final `triple` and the iteration at
which the loop was left through `break`, if it was. -/
def tripling_loop (P : Primitives) (par : Params) (A C : f2elm_t) :
    Nat → Nat → point_proj → point_proj × Option Nat
  | 0, _, T => (T, none)
  | n + 1, t, T =>
    let T1 := P.xTPL T A C
    if Z_is_zero P par T1 then (T1, some t) else tripling_loop P par A C n (t + 1) T1

/-- Locals of one iteration of the loop of `verify_thread`, as they stand at
the end of the iteration. -/
structure RoundLocals where
  bit : Nat
  verified : Bool
  oddRandom : Bool
  orderBreak : Option Nat
  deriving DecidableEq, Repr

/-- The critical section under `BLOCK` of a bit-0 round: `batchSize++` on
`verifyBatchA` and `verifyBatchB` when both exist. -/
def bump_bit0 (g : Globals) : Globals :=
  match g.verifyBatchA, g.verifyBatchB with
  | some a, some b => { g with verifyBatchA := some (bump a), verifyBatchB := some (bump b) }
  | _, _ => g

/-- The critical section under `BLOCK` of a bit-1 round: `batchSize++` on
`verifyBatchC` when it exists, and then on `decompressionBatch` when it exists. -/
def bump_bit1 (g : Globals) : Globals :=
  match g.verifyBatchC with
  | some c => { g with verifyBatchC := some (bump c),
                       decompressionBatch := g.decompressionBatch.map bump }
  | none => g

/-- Final value of `verified` in the bit-0 branch of round `r`: both
recomputed commitments compare equal to the stored ones.  `bA` and `bB` tell
whether `verifyBatchA` and `verifyBatchB` are non-NULL. -/
def bit0_verified (P : Primitives) (par : Params) (tpv : thread_params_verify)
    (r : Nat) (bA bB : Bool) : Bool :=
  let kg := P.KeyGeneration_A (tpv.sig.Randoms r) [] tpv.CurveIsogeny false bA
  let A := P.to_fp2mont (kg.2.2.headD [])
  let verified1 :=
    if memcmp A (tpv.sig.Commitments1 r) par.sizeof_f2elm_t ≠ 0 then false else true
  let sa := P.SecretAgreement_A (tpv.sig.Randoms r) tpv.PublicKey tpv.CurveIsogeny bB
  if memcmp sa.2 (tpv.sig.Commitments2 r) (2 * tpv.pbytes) ≠ 0 then false else verified1

/-- The bit-0 branch of the loop body of `verify_thread` for round `r`. -/
def verify_round_bit0 (P : Primitives) (par : Params) (tpv : thread_params_verify)
    (r bit : Nat) (g : Globals) : Globals × RoundLocals :=
  let g1 := bump_bit0 g
  let lastbyte := (tpv.sig.Randoms r).getD 0 0
  let oddRandom := decide (lastbyte % 2 ≠ 0)
  let verified := bit0_verified P par tpv r g1.verifyBatchA.isSome g1.verifyBatchB.isSome
  (g1, { bit := bit, verified := verified, oddRandom := oddRandom, orderBreak := none })

/-- The start of the bit-1 branch: `triple` and `newPsiS` are either the
decompressed point (with one `errorCount++`, and `newPsiS` left zero, when
decompression fails) or the stored `psiS[r]`.  Returns the number of
`errorCount++` executed, `triple` and `newPsiS`; `bD` tells whether
`decompressionBatch` is non-NULL. -/
def bit1_point (P : Primitives) (par : Params) (tpv : thread_params_verify)
    (r : Nat) (bD : Bool) : Nat × point_proj × point_proj :=
  if tpv.compressed then
    let d := P.decompressPsiS (tpv.sig.compPsiS r) (tpv.sig.compBit r)
      (tpv.sig.Commitments1 r) tpv.CurveIsogeny bD
    if d.1 ≠ CRYPTO_SUCCESS then (1, d.2, zero_point par) else (0, d.2, d.2)
  else
    (0, tpv.sig.psiS r, tpv.sig.psiS r)

/-- The shared secret recomputed in the bit-1 branch from `Commitments1[r]`
and the kernel point `newPsiS`; `bC` tells whether `verifyBatchC` is non-NULL. -/
def bit1_secret (P : Primitives) (tpv : thread_params_verify) (r : Nat)
    (newPsiS : point_proj) (bC : Bool) : Bytes :=
  let TempPubKey := [P.from_fp2mont (tpv.sig.Commitments1 r), zeros (2 * tpv.pbytes),
    zeros (2 * tpv.pbytes), zeros (2 * tpv.pbytes)]
  (P.SecretAgreement_B none TempPubKey tpv.CurveIsogeny (some newPsiS) false bC).2.1

/-- Final value of `verified` in the bit-1 branch of round `r`. -/
def bit1_verified (P : Primitives) (par : Params) (tpv : thread_params_verify)
    (r : Nat) (bD bC : Bool) : Bool :=
  let newPsiS := (bit1_point P par tpv r bD).2.2
  let TempSharSec := bit1_secret P tpv r newPsiS bC
  if memcmp TempSharSec (tpv.sig.Commitments2 r) (2 * tpv.pbytes) ≠ 0 then false else true

/-- The tripling loop of the bit-1 branch of round `r`: the final `triple`
and the iteration at which the loop was left through `break`, if it was. -/
def bit1_order_loop (P : Primitives) (par : Params) (tpv : thread_params_verify)
    (r : Nat) (bD : Bool) : point_proj × Option Nat :=
  let triple := (bit1_point P par tpv r bD).2.1
  let A := P.to_fp2mont (tpv.PublicKey.headD [])
  let C := tpv.CurveIsogeny.C ++ zeros par.sizeof_felm_t
  tripling_loop P par A C 238 0 triple

/-- The bit-1 branch of the loop body of `verify_thread` for round `r`. -/
def verify_round_bit1 (P : Primitives) (par : Params) (tpv : thread_params_verify)
    (r bit : Nat) (g : Globals) : Globals × RoundLocals :=
  let g1 := bump_bit1 g
  let dec := bit1_point P par tpv r g1.decompressionBatch.isSome
  let g2 := { g1 with errorCount := g1.errorCount + dec.1 }
  let loop := bit1_order_loop P par tpv r g1.decompressionBatch.isSome
  let verified := bit1_verified P par tpv r g1.decompressionBatch.isSome g2.verifyBatchC.isSome
  let g3 :=
    if tpv.sig.compressed then
      if !verified then { g2 with errorCount := g2.errorCount + 1 } else g2
    else g2
  (g3, { bit := bit, verified := verified, oddRandom := false, orderBreak := loop.2 })

/-- Body of the loop of `verify_thread` for the claimed round `r`: the new
globals and the locals at the end of the iteration. -/
def verify_round (P : Primitives) (par : Params) (tpv : thread_params_verify)
    (r : Nat) (g : Globals) : Globals × RoundLocals :=
  let bit := challenge_bit tpv.cHash r
  if bit = 0 then verify_round_bit0 P par tpv r bit g
  else verify_round_bit1 P par tpv r bit g

/-- Number of `errorCount++` executed by the loop body for round `r`; `bD`
and `bC` tell whether `decompressionBatch` and `verifyBatchC` are non-NULL
(`verify_round_fst` relates this to `verify_round`). -/
def round_errors (P : Primitives) (par : Params) (tpv : thread_params_verify)
    (r : Nat) (bD bC : Bool) : Nat :=
  if challenge_bit tpv.cHash r = 0 then 0
  else
    (bit1_point P par tpv r bD).1 +
      (if tpv.sig.compressed && !(bit1_verified P par tpv r bD bC) then 1 else 0)

/-- The loop of `isogeny_verify` that adds the one bits among the first
`NUM_THREADS` challenge bits to `psiS_count`. -/
def count_psiS (cHash : Bytes) (NUM_THREADS psiS_count : Nat) : Nat :=
  (List.range NUM_THREADS).foldl
    (fun c iter => if challenge_bit cHash iter ≠ 0 then c + 1 else c) psiS_count

/-- A freshly set up batch of the verifier: `batchSize = 0`, arrays of the
global `batchSize` elements. -/
def verify_batch (g : Globals) : batch_struct :=
  { batchSize := 0, cntr := 0, capacity := g.batchSize }

/-- Globals of `isogeny_verify` at the point where the first worker is
created: counters reset, `psiS_count` advanced, batches set up. -/
def verify_setup (cHash : Bytes) (batched compressed : Bool) (g : Globals) : Globals :=
  let g1 := { g with CUR_ROUND := 0, errorCount := 0,
                     psiS_count := count_psiS cHash g.NUM_THREADS g.psiS_count }
  if batched then
    { g1 with verifyBatchA := some (verify_batch g1), verifyBatchB := some (verify_batch g1),
              verifyBatchC := some (verify_batch g1),
              decompressionBatch := if compressed then some (verify_batch g1) else none }
  else
    { g1 with verifyBatchA := none, verifyBatchB := none, verifyBatchC := none,
              decompressionBatch := none }

/-- What `isogeny_verify` leaves behind: the returned status, the globals and
the local `cHash`. -/
structure VerifyResult where
  Status : CRYPTO_STATUS
  globals : Globals
  cHash : Bytes

/-- The challenge recomputed at the start of `isogeny_verify`. -/
def verify_cHash (P : Primitives) (par : Params) (CurveIsogeny : CurveIsogenyStruct)
    (sig : Signature) : Bytes :=
  let pbytes := (CurveIsogeny.pwordbits + 7) / 8
  let HashLength := 32
  let cHashLength := par.NUM_ROUNDS / 8
  let DataLen := DataLength par.NUM_ROUNDS pbytes HashLength
  (hashdata P par.NUM_ROUNDS pbytes sig.Commitments1 sig.Commitments2 sig.HashResp
    HashLength DataLen (zeros DataLen) cHashLength).2

/-- The `thread_params_verify` built by `isogeny_verify`. -/
def verify_params (P : Primitives) (par : Params) (CurveIsogeny : CurveIsogenyStruct)
    (PublicKey : List f2elm_t) (sig : Signature) (compressed : Bool) : thread_params_verify :=
  { CurveIsogeny := CurveIsogeny, PublicKey := PublicKey, sig := sig,
    cHashLength := par.NUM_ROUNDS / 8, cHash := verify_cHash P par CurveIsogeny sig,
    pbytes := (CurveIsogeny.pwordbits + 7) / 8, obytes := (CurveIsogeny.owordbits + 7) / 8,
    compressed := compressed }

/-- Globals of `isogeny_verify` when the last `pthread_join` has returned
(both mutexes having been initialised). -/
def verify_joined (P : Primitives) (par : Params) (CurveIsogeny : CurveIsogenyStruct)
    (PublicKey : List f2elm_t) (sig : Signature) (batched compressed : Bool)
    (g : Globals) : Globals :=
  let tpv := verify_params P par CurveIsogeny PublicKey sig compressed
  let g3 := verify_setup (verify_cHash P par CurveIsogeny sig) batched compressed g
  let g4 := run_pool par.NUM_ROUNDS g3.NUM_THREADS
    (fun r st => (verify_round P par tpv r st).1) g3
  { g4 with CUR_ROUND := pool_counter par.NUM_ROUNDS g3.NUM_THREADS }

/-- The function `isogeny_verify`. -/
def isogeny_verify (P : Primitives) (par : Params) (CurveIsogeny : CurveIsogenyStruct)
    (PublicKey : List f2elm_t) (sig : Signature) (batched compressed : Bool)
    (g : Globals) : VerifyResult :=
  let cHash := verify_cHash P par CurveIsogeny sig
  let g1 := { g with CUR_ROUND := 0 }
  if P.pthread_mutex_init Mutex.RLOCK ≠ 0 then
    { Status := CRYPTO_ERROR, globals := g1, cHash := cHash }
  else
    let g2 := { g1 with errorCount := 0 }
    if P.pthread_mutex_init Mutex.ELOCK ≠ 0 then
      { Status := CRYPTO_ERROR, globals := g2, cHash := cHash }
    else
      let g5 := verify_joined P par CurveIsogeny PublicKey sig batched compressed g
      if g5.errorCount > 0 then
        { Status := CRYPTO_ERROR_INVALID_ORDER, globals := g5, cHash := cHash }
      else
        { Status := CRYPTO_SUCCESS, globals := g5, cHash := cHash }

/-! ## Quantities used to state the properties -/

/-- Concatenation of the per-round buffers `f 0, .., f (k-1)`, as in the
specification of the challenge input (`concat over r of Commitment_r`). -/
def concat_rounds (f : Nat → Bytes) : Nat → Bytes
  | 0 => []
  | k + 1 => concat_rounds f k ++ f k

/-- Flip of bit `k` of byte `i` of a buffer. -/
def flip_bit (b : Bytes) (i k : Nat) : Bytes := b.set i ((b.getD i 0) ^^^ (1 <<< k))

/-- The buffer with the low bit of its first byte set (`x | 1`). -/
def or_low_bit (b : Bytes) : Bytes := b.set 0 ((b.getD 0 0) ||| 1)

/-- Number of zero bits among the first `n` challenge bits. -/
def zero_bits (cHash : Bytes) (n : Nat) : Nat :=
  ((List.range n).filter (fun r => decide (challenge_bit cHash r = 0))).length

/-- Number of one bits among the first `n` challenge bits. -/
def one_bits (cHash : Bytes) (n : Nat) : Nat :=
  ((List.range n).filter (fun r => decide (challenge_bit cHash r ≠ 0))).length

/-- The `batchSize` field of a batch pointer, `none` for NULL. -/
def batchSize_of (b : Option batch_struct) : Option Nat := b.map batch_struct.batchSize

/-- Number of `errorCount++` executed by the loop body of `sign_thread` for
round `r` (`sign_round_errorCount` relates this to `sign_round`). -/
def sign_round_errors (P : Primitives) (tps : thread_params_sign) (rng : Nat → Bytes)
    (r : Nat) (bA bB bK : Bool) : Nat :=
  if tps.compressed && decide ((sign_compression P tps rng r bA bB bK).1 ≠ CRYPTO_SUCCESS)
  then 1 else 0

/-! ## A small instance of the parameters and primitives

Used to evaluate the embedding on concrete inputs: eight rounds, one-byte
field elements and scalars.  The functions below stand in for the external
library; none of the general theorems depends on them. -/

/-- Eight rounds, one-byte words. -/
def toy_params : Params :=
  { NUM_ROUNDS := 8, NWORDS_FIELD := 1, NWORDS_ORDER := 1, sizeof_digit_t := 1 }

/-- One-byte field elements (`pbytes = 1`) and scalars (`obytes = 1`). -/
def toy_curve : CurveIsogenyStruct := { pwordbits := 8, owordbits := 8, C := [1] }

/-- Stand-in key generation: the public key starts with `[k, 2]` for the
scalar byte `k`. -/
def toy_KeyGeneration_A (priv rnd : Bytes) ( _c : CurveIsogenyStruct) (generateKey _batch : Bool) :
    CRYPTO_STATUS × Bytes × List f2elm_t :=
  let k := if generateKey then rnd else priv
  (CRYPTO_SUCCESS, k, [[k.headD 0, 2], [0, 0], [0, 0], [0, 0]])

/-- Stand-in A-side agreement: the scalar byte plus the first byte of the public key. -/
def toy_SecretAgreement_A (priv : Bytes) (pub : List f2elm_t) ( _c : CurveIsogenyStruct)
    ( _batch : Bool) : CRYPTO_STATUS × Bytes :=
  (CRYPTO_SUCCESS, [(priv.headD 0 + (pub.headD []).headD 0) % 256, 0])

/-- Stand-in B-side agreement: the kernel point of the secret `sk` is
`([sk, 0] : [1, 0])`, and the shared secret is computed from the kernel point
and the first element of the public key. -/
def toy_SecretAgreement_B (priv : Option Bytes) (pub : List f2elm_t) ( _c : CurveIsogenyStruct)
    (kernel : Option point_proj) ( _wantPsiS _batch : Bool) :
    CRYPTO_STATUS × Bytes × point_proj :=
  match priv, kernel with
  | some sk, _ =>
    (CRYPTO_SUCCESS, [(sk.headD 0 + (pub.headD []).headD 0) % 256, 0],
      { X := [sk.headD 0, 0], Z := [1, 0] })
  | none, some K =>
    (CRYPTO_SUCCESS, [(K.X.headD 0 + (pub.headD []).headD 0) % 256, 0], K)
  | none, none => (CRYPTO_ERROR_INVALID_PARAMETER, [0, 0], { X := [0, 0], Z := [0, 0] })

/-- Stand-in compressor: keeps the first byte of `X`. -/
def toy_compressPsiS (psiS : point_proj) ( _A : f2elm_t) ( _c : CurveIsogenyStruct)
    ( _batch : Bool) : CRYPTO_STATUS × Bytes × Int :=
  (CRYPTO_SUCCESS, [psiS.X.headD 0], 0)

/-- Stand-in decompressor; fails on an empty scalar buffer. -/
def toy_decompressPsiS (comp : Bytes) ( _bit : Int) ( _A : f2elm_t) ( _c : CurveIsogenyStruct)
    ( _batch : Bool) : CRYPTO_STATUS × point_proj :=
  match comp with
  | [] => (CRYPTO_ERROR_DURING_TEST, { X := [0, 0], Z := [0, 0] })
  | x :: _ => (CRYPTO_SUCCESS, { X := [x, 0], Z := [1, 0] })

/-- Stand-in tripling: points whose first `X` byte is odd go to infinity. -/
def toy_xTPL (T : point_proj) ( _A _C : f2elm_t) : point_proj :=
  if T.X.headD 0 % 2 = 1 then { X := T.X, Z := [0, 0] } else T

/-- Stand-in sponge: byte `i` of the digest is the sum of the input plus `i`. -/
def toy_keccak (input : Bytes) (outlen : Nat) : Bytes :=
  (List.range outlen).map (fun i => (input.sum + i) % 256)

/-- The stand-in primitives. -/
def toy_primitives : Primitives :=
  { KeyGeneration_A := toy_KeyGeneration_A,
    SecretAgreement_A := toy_SecretAgreement_A,
    SecretAgreement_B := toy_SecretAgreement_B,
    compressPsiS := toy_compressPsiS,
    decompressPsiS := toy_decompressPsiS,
    xTPL := toy_xTPL,
    to_fp2mont := List.reverse,
    from_fp2mont := List.reverse,
    is_felm_zero := fun b => b.all (fun x => x == 0),
    keccak := toy_keccak,
    pthread_mutex_init := fun _ => 0 }

/-- An empty signature structure, as handed to the signer. -/
def empty_signature : Signature :=
  { Commitments1 := fun _ => [], Commitments2 := fun _ => [], HashResp := [],
    Randoms := fun _ => [], psiS := fun _ => { X := [], Z := [] },
    compPsiS := fun _ => [], compBit := fun _ => 0, compressed := false }

/-- Random source of the examples: round `r` draws the byte `2 * r + 2`. -/
def toy_rng (r : Nat) : Bytes := [2 * r + 2]

/-- Long-term public key of the secret `sk` in the examples. -/
def toy_PublicKey (sk : Bytes) : List f2elm_t := [[sk.headD 0, 1], [0, 0], [0, 0], [0, 0]]

/-- The signer output of the examples for the secret `sk` (not batched). -/
def toy_signed (sk : Bytes) (compressed : Bool) : SignResult :=
  isogeny_sign toy_primitives toy_params toy_curve sk (toy_PublicKey sk) empty_signature false
    compressed toy_rng Globals.initial

/-- The locals of round `r` of a call `isogeny_verify(.., pk, sig, batched, compressed)`
on the stand-in primitives. -/
def toy_round (pk : List f2elm_t) (sig : Signature) (batched compressed : Bool) (r : Nat) :
    RoundLocals :=
  (verify_round toy_primitives toy_params
    (verify_params toy_primitives toy_params toy_curve pk sig compressed) r
    (verify_setup (verify_cHash toy_primitives toy_params toy_curve sig) batched compressed
      Globals.initial)).2

/-- The status returned by `isogeny_verify(.., pk, sig, batched, compressed)` on
the stand-in primitives. -/
def toy_verify (pk : List f2elm_t) (sig : Signature) (batched compressed : Bool) :
    CRYPTO_STATUS :=
  (isogeny_verify toy_primitives toy_params toy_curve pk sig batched compressed
    Globals.initial).Status

/-- The compressed example signature with the low bit of `HashResp[0]` flipped. -/
def sig_flip_HashResp : Signature :=
  { (toy_signed [4] true).sig with HashResp := flip_bit (toy_signed [4] true).sig.HashResp 0 0 }

/-- The compressed example signature with the low bit of `Randoms[7]` flipped. -/
def sig_flip_Randoms : Signature :=
  { (toy_signed [4] true).sig with
    Randoms := Function.update (toy_signed [4] true).sig.Randoms 7
      (flip_bit ((toy_signed [4] true).sig.Randoms 7) 0 0) }

/-- The uncompressed example signature with `Randoms[0]` replaced by `[76]`,
so that neither commitment of round 0 is reproduced. -/
def sig_bad_round0 : Signature :=
  { (toy_signed [4] false).sig with
    Randoms := Function.update (toy_signed [4] false).sig.Randoms 0 [76] }

/-- The uncompressed example signature with `psiS[6]` replaced by a point that
does not reproduce `Commitments2[6]`. -/
def sig_bad_round6 : Signature :=
  { (toy_signed [4] false).sig with
    psiS := Function.update (toy_signed [4] false).sig.psiS 6 { X := [98, 0], Z := [1, 0] } }

/-- The uncompressed example signature with `Randoms[3]` replaced by
`Randoms[3] | 1`. -/
def sig_odd_random : Signature :=
  { (toy_signed [4] false).sig with
    Randoms := Function.update (toy_signed [4] false).sig.Randoms 3
      (or_low_bit ((toy_signed [4] false).sig.Randoms 3)) }

/-- Stand-in primitives whose `compressPsiS` reports a failure. -/
def failing_compress_primitives : Primitives :=
  { toy_primitives with
    compressPsiS := fun _ _ _ _ => (CRYPTO_ERROR_DURING_TEST, [0], 0) }

/-- Stand-in primitives whose `KeyGeneration_A` and `SecretAgreement_B`
report a failure (as the library does on a NULL or uninitialised curve
structure) and leave their outputs zeroed. -/
def failing_primitives : Primitives :=
  { toy_primitives with
    KeyGeneration_A := fun priv _ _ _ _ =>
      (CRYPTO_ERROR_INVALID_PARAMETER, priv, [[0, 0], [0, 0], [0, 0], [0, 0]]),
    SecretAgreement_B := fun _ _ _ _ _ _ =>
      (CRYPTO_ERROR_INVALID_PARAMETER, [0, 0], { X := [0, 0], Z := [0, 0] }) }

/-! ## Arguments of the triplings -/

/-- The calls `xTPL(triple, triple, A, C)` made by the tripling loop with `n`
iterations left, in order: the point, `A` and `C` passed to each call.  The
loop makes a call, then stops if the result has `Z = 0`
(`tripling_loop_calls` relates this to `tripling_loop`). -/
def tripling_calls (P : Primitives) (par : Params) (A C : f2elm_t) :
    Nat → point_proj → List (point_proj × f2elm_t × f2elm_t)
  | 0, _ => []
  | n + 1, T =>
    let T1 := P.xTPL T A C
    (T, A, C) :: (if Z_is_zero P par T1 then [] else tripling_calls P par A C n T1)

/-- The calls of `xTPL` made in the bit-1 branch of round `r`: at that point
`A` holds `to_fp2mont(PublicKey[0])`, which has overwritten the copy of
`Commitments1[r]`, and `C` holds `(CurveIsogeny->C, 0)`. -/
def bit1_tripling_calls (P : Primitives) (par : Params) (tpv : thread_params_verify)
    (r : Nat) (bD : Bool) : List (point_proj × f2elm_t × f2elm_t) :=
  let triple := (bit1_point P par tpv r bD).2.1
  let A := P.to_fp2mont (tpv.PublicKey.headD [])
  let C := tpv.CurveIsogeny.C ++ zeros par.sizeof_felm_t
  tripling_calls P par A C 238 triple

/-- The calls of `xTPL` in round `r` of a call
`isogeny_verify(.., pk, sig, batched, compressed)` on the stand-in primitives. -/
def toy_tripling_calls (pk : List f2elm_t) (sig : Signature) (batched compressed : Bool)
    (r : Nat) : List (point_proj × f2elm_t × f2elm_t) :=
  bit1_tripling_calls toy_primitives toy_params
    (verify_params toy_primitives toy_params toy_curve pk sig compressed) r
    (batched && compressed)

/-! # Theorems -/

/-! ## Buffers -/

theorem memcpy_length (dst src : Bytes) (off n : Nat) (h1 : off + n ≤ dst.length)
    (h2 : n ≤ src.length) : (memcpy dst off src n).length = dst.length := by
  simp [memcpy]; omega

theorem memcpy_getElem? (dst src : Bytes) (off n i : Nat) (h1 : off + n ≤ dst.length)
    (h2 : n ≤ src.length) :
    (memcpy dst off src n)[i]? =
      if i < off then dst[i]? else if i < off + n then src[i - off]? else dst[i]? := by
  unfold memcpy
  have e1 : (List.take off dst).length = off := by simp; omega
  have e2 : (List.take n src).length = n := by simp; omega
  by_cases c1 : i < off
  · simp [c1, List.getElem?_append_left, e1, List.getElem?_take]
  · by_cases c2 : i < off + n
    · have : i - off < n := by omega
      rw [List.append_assoc, List.getElem?_append_right (by omega), e1,
        List.getElem?_append_left (by omega)]
      simp [c1, c2, List.getElem?_take, this]
    · rw [List.getElem?_append_right (by simp; omega)]
      simp [c1, c2, e1, e2]
      congr 1; omega

theorem buf_slice_getElem? (buf : Bytes) (off n i : Nat) :
    (buf_slice buf off n)[i]? = if i < n then buf[off + i]? else none := by
  unfold buf_slice
  by_cases c : i < n <;> simp [c, List.getElem?_take]

/-! ## hashdata -/

theorem u32_of_lt (n : Nat) (h : n < 2 ^ 32) : u32 n = n := Nat.mod_eq_of_lt h

theorem hashdata_round_spec (N pbytes : Nat) (comm1 comm2 : Nat → Bytes) (data : Bytes)
    (r : Nat) (hfit : 2 * N * (2 * pbytes) < 2 ^ 31) (hr : r < N)
    (hlen : 2 * N * (2 * pbytes) ≤ data.length)
    (h1 : (comm1 r).length = 2 * pbytes) (h2 : (comm2 r).length = 2 * pbytes) :
    (hashdata_round N pbytes comm1 comm2 data r).length = data.length ∧
    ∀ i, (hashdata_round N pbytes comm1 comm2 data r)[i]? =
      if r * (2 * pbytes) ≤ i ∧ i < r * (2 * pbytes) + 2 * pbytes then
        (comm1 r)[i - r * (2 * pbytes)]?
      else if N * (2 * pbytes) + r * (2 * pbytes) ≤ i ∧
          i < N * (2 * pbytes) + r * (2 * pbytes) + 2 * pbytes then
        (comm2 r)[i - (N * (2 * pbytes) + r * (2 * pbytes))]?
      else data[i]? := by
  generalize hW : 2 * pbytes = W at *
  have a1 : (r + 1) * W ≤ N * W := Nat.mul_le_mul_right W hr
  have a2 : (r + 1) * W = r * W + W := by ring
  have a3 : 2 * N * W = N * W + N * W := by ring
  have e1 : u32 (r * 2 * pbytes) = r * W := by
    rw [Nat.mul_assoc, hW]; exact u32_of_lt _ (by omega)
  have e2 : u32 (N * 2 * pbytes) = N * W := by
    rw [Nat.mul_assoc, hW]; exact u32_of_lt _ (by omega)
  have e3 : u32 W = W := u32_of_lt _ (by omega)
  unfold hashdata_round
  simp only [e1, e2, hW, e3]
  have l1 : (memcpy data (r * W) (comm1 r) W).length = data.length :=
    memcpy_length _ _ _ _ (by omega) (by omega)
  refine ⟨?_, ?_⟩
  · rw [memcpy_length _ _ _ _ (by omega) (by omega), l1]
  · intro i
    rw [memcpy_getElem? _ _ _ _ _ (by omega) (by omega),
      memcpy_getElem? _ _ _ _ _ (by omega) (by omega)]
    by_cases c1 : i < r * W
    · have n1 : ¬ (r * W ≤ i ∧ i < r * W + W) := by omega
      have n2 : ¬ (N * W + r * W ≤ i ∧ i < N * W + r * W + W) := by omega
      have n3 : i < N * W + r * W := by omega
      simp [c1, n1, n2, n3]
    · by_cases c2 : i < r * W + W
      · have y1 : r * W ≤ i ∧ i < r * W + W := by omega
        have n3 : i < N * W + r * W := by omega
        simp [c1, c2, y1, n3]
      · have n1 : ¬ (r * W ≤ i ∧ i < r * W + W) := by omega
        by_cases c3 : i < N * W + r * W
        · have n2 : ¬ (N * W + r * W ≤ i ∧ i < N * W + r * W + W) := by omega
          simp [c1, c2, c3, n1, n2]
        · by_cases c4 : i < N * W + r * W + W
          · have y2 : N * W + r * W ≤ i ∧ i < N * W + r * W + W := by omega
            simp [c3, c4, n1, y2]
          · have n2 : ¬ (N * W + r * W ≤ i ∧ i < N * W + r * W + W) := by omega
            simp [c1, c2, c3, c4, n1, n2]

theorem hashdata_fold_spec (N pbytes : Nat) (comm1 comm2 : Nat → Bytes) (data : Bytes)
    (hfit : 2 * N * (2 * pbytes) < 2 ^ 31)
    (hlen : 2 * N * (2 * pbytes) ≤ data.length)
    (h1 : ∀ r, r < N → (comm1 r).length = 2 * pbytes)
    (h2 : ∀ r, r < N → (comm2 r).length = 2 * pbytes) (k : Nat) (hk : k ≤ N) :
    ((List.range k).foldl (hashdata_round N pbytes comm1 comm2) data).length = data.length ∧
    (∀ r j, r < k → j < 2 * pbytes →
      ((List.range k).foldl (hashdata_round N pbytes comm1 comm2) data)[r * (2 * pbytes) + j]? =
        (comm1 r)[j]?) ∧
    (∀ r j, r < k → j < 2 * pbytes →
      ((List.range k).foldl (hashdata_round N pbytes comm1 comm2) data)[N * (2 * pbytes) +
        r * (2 * pbytes) + j]? = (comm2 r)[j]?) ∧
    (∀ i, 2 * N * (2 * pbytes) ≤ i →
      ((List.range k).foldl (hashdata_round N pbytes comm1 comm2) data)[i]? = data[i]?) := by
  induction k with
  | zero => simp
  | succ k ih =>
    obtain ⟨il, i1, i2, i3⟩ := ih (by omega)
    rw [List.range_succ, List.foldl_append]
    simp only [List.foldl_cons, List.foldl_nil]
    generalize (List.range k).foldl (hashdata_round N pbytes comm1 comm2) data = d at *
    obtain ⟨sl, sg⟩ := hashdata_round_spec N pbytes comm1 comm2 d k hfit (by omega)
      (by omega) (h1 k (by omega)) (h2 k (by omega))
    generalize hW : 2 * pbytes = W at *
    have a3 : 2 * N * W = N * W + N * W := by ring
    have b1 : (k + 1) * W ≤ N * W := Nat.mul_le_mul_right W hk
    have b2 : (k + 1) * W = k * W + W := by ring
    refine ⟨by omega, ?_, ?_, ?_⟩
    · intro r j hr hj
      rw [sg]
      by_cases c : r = k
      · subst c
        have y : r * W ≤ r * W + j ∧ r * W + j < r * W + W := by omega
        simp [y]
      · have hrk : r < k := by omega
        have a1 : (r + 1) * W ≤ k * W := Nat.mul_le_mul_right W hrk
        have a2 : (r + 1) * W = r * W + W := by ring
        have n1 : ¬ (k * W ≤ r * W + j ∧ r * W + j < k * W + W) := by omega
        have n2 : ¬ (N * W + k * W ≤ r * W + j ∧ r * W + j < N * W + k * W + W) := by omega
        simp only [n1, n2, if_false]
        exact i1 r j hrk hj
    · intro r j hr hj
      rw [sg]
      by_cases c : r = k
      · subst c
        have n1 : ¬ (r * W ≤ N * W + r * W + j ∧ N * W + r * W + j < r * W + W) := by omega
        have y : N * W + r * W ≤ N * W + r * W + j ∧
            N * W + r * W + j < N * W + r * W + W := by omega
        simp only [n1, y, if_false, and_self, if_true]
        congr 1; omega
      · have hrk : r < k := by omega
        have a1 : (r + 1) * W ≤ k * W := Nat.mul_le_mul_right W hrk
        have a2 : (r + 1) * W = r * W + W := by ring
        have n1 : ¬ (k * W ≤ N * W + r * W + j ∧ N * W + r * W + j < k * W + W) := by omega
        have n2 : ¬ (N * W + k * W ≤ N * W + r * W + j ∧
            N * W + r * W + j < N * W + k * W + W) := by omega
        simp only [n1, n2, if_false]
        exact i2 r j hrk hj
    · intro i hi
      rw [sg]
      have n1 : ¬ (k * W ≤ i ∧ i < k * W + W) := by omega
      have n2 : ¬ (N * W + k * W ≤ i ∧ i < N * W + k * W + W) := by omega
      simp only [n1, n2, if_false]
      exact i3 i hi

theorem buf_slice_add (buf : Bytes) (off m n : Nat) :
    buf_slice buf off (m + n) = buf_slice buf off m ++ buf_slice buf (off + m) n := by
  unfold buf_slice
  rw [List.take_add, List.drop_drop]

theorem buf_slice_eq_of_getElem? (buf src : Bytes) (off n : Nat) (hs : src.length = n)
    (h : ∀ j, j < n → buf[off + j]? = src[j]?) : buf_slice buf off n = src := by
  apply List.ext_getElem?
  intro i
  rw [buf_slice_getElem?]
  by_cases c : i < n
  · simp only [c, if_true]; exact h i c
  · simp only [c, if_false]
    exact (List.getElem?_eq_none (by omega)).symm

theorem buf_slice_concat_rounds (buf : Bytes) (f : Nat → Bytes) (off W k : Nat)
    (h : ∀ r, r < k → buf_slice buf (off + r * W) W = f r) :
    buf_slice buf off (k * W) = concat_rounds f k := by
  induction k with
  | zero => simp [buf_slice, concat_rounds]
  | succ k ih =>
    have e : (k + 1) * W = k * W + W := by ring
    rw [e, buf_slice_add, concat_rounds, ih (fun r hr => h r (by omega)), h k (by omega)]

theorem buf_slice_full (buf : Bytes) : buf_slice buf 0 buf.length = buf := by
  simp [buf_slice]

/-- C6. Layout of the challenge input: when the data buffer has the
`DataLength` bytes and that length fits a C `int`, `hashdata` (called with
`hlen = 32`, `dlen = DataLength`, `cHashLength = NUM_ROUNDS/8` as in
`isogeny_sign`) leaves `Commitments1[r]` in bytes
`[r*2*pbytes, (r+1)*2*pbytes)`, `Commitments2[r]` in bytes
`[NUM_ROUNDS*2*pbytes + r*2*pbytes, .. + 2*pbytes)` and the `HashResp`
table in the last `2*NUM_ROUNDS*32` bytes; the buffer is exactly the
concatenation of the three regions, `DataLength` bytes long, and `cHash` is
`keccak` of the whole buffer with output length `NUM_ROUNDS/8`. -/
theorem hashdata_layout (P : Primitives) (N pbytes : Nat) (comm1 comm2 : Nat → Bytes)
    (HashResp data : Bytes)
    (hfit : 2 * N * 2 * pbytes + 2 * N * 32 < 2 ^ 31)
    (hdata : data.length = DataLength N pbytes 32)
    (h1 : ∀ r, r < N → (comm1 r).length = 2 * pbytes)
    (h2 : ∀ r, r < N → (comm2 r).length = 2 * pbytes)
    (hH : HashResp.length = 2 * N * 32) :
    DataLength N pbytes 32 = 2 * N * 2 * pbytes + 2 * N * 32 ∧
    (hashdata P N pbytes comm1 comm2 HashResp 32 (DataLength N pbytes 32) data (N / 8)).1.length
      = DataLength N pbytes 32 ∧
    (∀ r, r < N →
      buf_slice (hashdata P N pbytes comm1 comm2 HashResp 32 (DataLength N pbytes 32) data
        (N / 8)).1 (r * 2 * pbytes) (2 * pbytes) = comm1 r) ∧
    (∀ r, r < N →
      buf_slice (hashdata P N pbytes comm1 comm2 HashResp 32 (DataLength N pbytes 32) data
        (N / 8)).1 (N * 2 * pbytes + r * 2 * pbytes) (2 * pbytes) = comm2 r) ∧
    buf_slice (hashdata P N pbytes comm1 comm2 HashResp 32 (DataLength N pbytes 32) data
      (N / 8)).1 (2 * N * 2 * pbytes) (2 * N * 32) = HashResp ∧
    (hashdata P N pbytes comm1 comm2 HashResp 32 (DataLength N pbytes 32) data (N / 8)).1
      = concat_rounds comm1 N ++ concat_rounds comm2 N ++ HashResp ∧
    (hashdata P N pbytes comm1 comm2 HashResp 32 (DataLength N pbytes 32) data (N / 8)).2
      = P.keccak (hashdata P N pbytes comm1 comm2 HashResp 32 (DataLength N pbytes 32) data
          (N / 8)).1 (N / 8) := by
  have m1 : ∀ x : Nat, x * 2 * pbytes = x * (2 * pbytes) := fun x => Nat.mul_assoc x 2 pbytes
  have m2 : 2 * N * 2 * pbytes = 2 * N * (2 * pbytes) := Nat.mul_assoc (2 * N) 2 pbytes
  rw [m2] at hfit
  simp only [m1, m2]
  have hD : DataLength N pbytes 32 = 2 * N * (2 * pbytes) + 2 * N * 32 := by
    unfold DataLength
    rw [m2, u32_of_lt _ (by omega)]
    omega
  rw [hD] at hdata ⊢
  obtain ⟨dl, i1, i2, i3⟩ := hashdata_fold_spec N pbytes comm1 comm2 data (by omega)
    (by omega) h1 h2 N (le_refl N)
  have ho : (hashdata P N pbytes comm1 comm2 HashResp 32
      (2 * N * (2 * pbytes) + 2 * N * 32) data (N / 8)).1 =
      memcpy ((List.range N).foldl (hashdata_round N pbytes comm1 comm2) data)
        (2 * N * (2 * pbytes)) HashResp (2 * N * 32) := by
    simp only [hashdata, hashdata_buffer, m2]
    rw [u32_of_lt _ (by omega)]
  have ho2 : (hashdata P N pbytes comm1 comm2 HashResp 32
      (2 * N * (2 * pbytes) + 2 * N * 32) data (N / 8)).2 =
      P.keccak ((hashdata P N pbytes comm1 comm2 HashResp 32
        (2 * N * (2 * pbytes) + 2 * N * 32) data (N / 8)).1.take
          (2 * N * (2 * pbytes) + 2 * N * 32)) (N / 8) := rfl
  rw [ho2, ho]
  generalize (List.range N).foldl (hashdata_round N pbytes comm1 comm2) data = d at *
  generalize hW : 2 * pbytes = W at *
  have a3 : 2 * N * W = N * W + N * W := by ring
  have ol : (memcpy d (2 * N * W) HashResp (2 * N * 32)).length = 2 * N * W + 2 * N * 32 := by
    rw [memcpy_length _ _ _ _ (by omega) (by omega)]; omega
  have og : ∀ i, (memcpy d (2 * N * W) HashResp (2 * N * 32))[i]? =
      if i < 2 * N * W then d[i]? else if i < 2 * N * W + 2 * N * 32 then
        HashResp[i - 2 * N * W]? else d[i]? :=
    fun i => memcpy_getElem? _ _ _ _ _ (by omega) (by omega)
  have s1 : ∀ r, r < N →
      buf_slice (memcpy d (2 * N * W) HashResp (2 * N * 32)) (r * W) W = comm1 r := by
    intro r hr
    apply buf_slice_eq_of_getElem? _ _ _ _ (h1 r hr)
    intro j hj
    have a1 : (r + 1) * W ≤ N * W := Nat.mul_le_mul_right W hr
    have a2 : (r + 1) * W = r * W + W := by ring
    rw [og, if_pos (by omega)]
    exact i1 r j hr hj
  have s2 : ∀ r, r < N →
      buf_slice (memcpy d (2 * N * W) HashResp (2 * N * 32)) (N * W + r * W) W = comm2 r := by
    intro r hr
    apply buf_slice_eq_of_getElem? _ _ _ _ (h2 r hr)
    intro j hj
    have a1 : (r + 1) * W ≤ N * W := Nat.mul_le_mul_right W hr
    have a2 : (r + 1) * W = r * W + W := by ring
    rw [og, if_pos (by omega)]
    exact i2 r j hr hj
  have s3 : buf_slice (memcpy d (2 * N * W) HashResp (2 * N * 32)) (2 * N * W) (2 * N * 32)
      = HashResp := by
    apply buf_slice_eq_of_getElem? _ _ _ _ hH
    intro j hj
    rw [og, if_neg (by omega), if_pos (by omega)]
    congr 1; omega
  refine ⟨rfl, ol, s1, s2, s3, ?_, ?_⟩
  · have c1 := buf_slice_concat_rounds _ comm1 0 W N (by simpa using s1)
    have c2 := buf_slice_concat_rounds _ comm2 (N * W) W N s2
    generalize memcpy d (2 * N * W) HashResp (2 * N * 32) = B at *
    have f := buf_slice_full B
    have e : B.length = N * W + N * W + 2 * N * 32 := by omega
    rw [e, buf_slice_add, buf_slice_add] at f
    have e3 : 0 + (N * W + N * W) = 2 * N * W := by omega
    rw [Nat.zero_add, e3, c1, c2, s3] at f
    exact f.symm
  · rw [← ol, List.take_length]

/-- Instance of `hashdata_layout`: eight rounds, one-byte field elements,
`Commitments1[r] = [r, r+1]`, `Commitments2[r] = [100+r, 0]`, a table of
sevens and a zeroed data buffer. -/
theorem hashdata_layout_witness :
    (hashdata toy_primitives 8 1 (fun r => [r, r + 1]) (fun r => [100 + r, 0])
      (List.replicate 512 7) 32 (DataLength 8 1 32) (zeros 544) (8 / 8)).1
      = concat_rounds (fun r => [r, r + 1]) 8 ++ concat_rounds (fun r => [100 + r, 0]) 8
          ++ List.replicate 512 7 :=
  (hashdata_layout toy_primitives 8 1 (fun r => [r, r + 1]) (fun r => [100 + r, 0])
    (List.replicate 512 7) (zeros 544) (by norm_num)
    (by rw [zeros, List.length_replicate, DataLength, u32]; norm_num)
    (fun _ _ => rfl) (fun _ _ => rfl) (by rw [List.length_replicate])).2.2.2.2.2.1

/-! ## Challenge -/

theorem hashdata_fold_congr (N pbytes : Nat) (c1 c2 d1 d2 : Nat → Bytes) (data : Bytes)
    (k : Nat) (h1 : ∀ r, r < k → c1 r = d1 r) (h2 : ∀ r, r < k → c2 r = d2 r) :
    (List.range k).foldl (hashdata_round N pbytes c1 c2) data =
      (List.range k).foldl (hashdata_round N pbytes d1 d2) data := by
  induction k with
  | zero => rfl
  | succ k ih =>
    rw [List.range_succ, List.foldl_append, List.foldl_append,
      ih (fun r hr => h1 r (by omega)) (fun r hr => h2 r (by omega))]
    simp only [List.foldl_cons, List.foldl_nil, hashdata_round, h1 k (by omega),
      h2 k (by omega)]

theorem hashdata_congr (P : Primitives) (N pbytes : Nat) (c1 c2 d1 d2 : Nat → Bytes)
    (H : Bytes) (hlen dlen : Nat) (data : Bytes) (n : Nat)
    (h1 : ∀ r, r < N → c1 r = d1 r) (h2 : ∀ r, r < N → c2 r = d2 r) :
    hashdata P N pbytes c1 c2 H hlen dlen data n = hashdata P N pbytes d1 d2 H hlen dlen data n := by
  simp only [hashdata, hashdata_buffer, hashdata_fold_congr N pbytes c1 c2 d1 d2 data N h1 h2]

theorem isogeny_sign_cHash (P : Primitives) (par : Params) (curve : CurveIsogenyStruct)
    (sk : Bytes) (pk : List f2elm_t) (sig0 : Signature) (batched compressed : Bool)
    (rng : Nat → Bytes) (g : Globals) (hm : ∀ m, P.pthread_mutex_init m = 0) :
    (isogeny_sign P par curve sk pk sig0 batched compressed rng g).cHash =
      verify_cHash P par curve (isogeny_sign P par curve sk pk sig0 batched compressed rng g).sig := by
  simp [isogeny_sign, hm, verify_cHash]

theorem isogeny_verify_cHash (P : Primitives) (par : Params) (curve : CurveIsogenyStruct)
    (pk : List f2elm_t) (sig : Signature) (batched compressed : Bool) (g : Globals) :
    (isogeny_verify P par curve pk sig batched compressed g).cHash =
      verify_cHash P par curve sig := by
  unfold isogeny_verify
  simp only []
  split
  · rfl
  · split
    · rfl
    · split <;> rfl

/-- C7. Determinism of the challenge: when the signer ran (its two mutexes
were initialised), the `cHash` that `isogeny_verify` recomputes from any
signature agreeing with the signer's output on `Commitments1[r]`,
`Commitments2[r]` (for the rounds `r < NUM_ROUNDS`) and `HashResp`, under
the same curve parameters, equals the `cHash` that `isogeny_sign` computed;
the other signature fields, the public key, the `batched` and `compressed`
flags and the globals of the verifying call are arbitrary. -/
theorem challenge_determinism (P : Primitives) (par : Params) (curve : CurveIsogenyStruct)
    (sk : Bytes) (pk : List f2elm_t) (sig0 : Signature) (batched compressed : Bool)
    (rng : Nat → Bytes) (g : Globals)
    (sigV : Signature) (pkV : List f2elm_t) (batchedV compressedV : Bool) (gV : Globals)
    (hm : ∀ m, P.pthread_mutex_init m = 0)
    (h1 : ∀ r, r < par.NUM_ROUNDS → sigV.Commitments1 r =
      (isogeny_sign P par curve sk pk sig0 batched compressed rng g).sig.Commitments1 r)
    (h2 : ∀ r, r < par.NUM_ROUNDS → sigV.Commitments2 r =
      (isogeny_sign P par curve sk pk sig0 batched compressed rng g).sig.Commitments2 r)
    (h3 : sigV.HashResp =
      (isogeny_sign P par curve sk pk sig0 batched compressed rng g).sig.HashResp) :
    (isogeny_verify P par curve pkV sigV batchedV compressedV gV).cHash =
      (isogeny_sign P par curve sk pk sig0 batched compressed rng g).cHash := by
  rw [isogeny_verify_cHash, isogeny_sign_cHash P par curve sk pk sig0 batched compressed rng g hm]
  unfold verify_cHash
  simp only [h3]
  rw [hashdata_congr P par.NUM_ROUNDS _ _ _ _ _ _ _ _ _ _ h1 h2]

/-- Instance of `challenge_determinism`: the uncompressed example
signature with every `Randoms[r]` replaced and the `compressed` flag set,
verified in batched compressed mode under another public key. -/
theorem challenge_determinism_witness :
    (isogeny_verify toy_primitives toy_params toy_curve []
      { (toy_signed [4] false).sig with Randoms := fun _ => [99], compressed := true }
      true true Globals.initial).cHash = (toy_signed [4] false).cHash :=
  challenge_determinism toy_primitives toy_params toy_curve [4] (toy_PublicKey [4]) empty_signature
    false false toy_rng Globals.initial
    { (toy_signed [4] false).sig with Randoms := fun _ => [99], compressed := true }
    [] true true Globals.initial (fun _ => rfl) (fun _ _ => rfl) (fun _ _ => rfl) rfl

/-! ## Round worker pool -/

theorem PoolInv_start {σ : Type} (N T : Nat) (body : Nat → σ → σ) (s0 : σ) :
    PoolInv N T body s0 (PoolState.start s0) := by
  simp [PoolInv, PoolState.start]

theorem PoolInv_step {σ : Type} (N T : Nat) (body : Nat → σ → σ) (s0 : σ) (w : Nat)
    (s : PoolState σ) (h : PoolInv N T body s0 s) :
    PoolInv N T body s0 (worker_step N T body w s) := by
  obtain ⟨h1, h2, h3, h4, h5⟩ := h
  unfold worker_step
  split
  · rename_i hw
    split
    · rename_i hc
      refine ⟨h1, h2, h3, h4, ?_⟩
      intro v _
      exact hc
    · rename_i hc
      refine ⟨?_, ?_, ?_, ?_, ?_⟩
      · simp only [List.map_append, List.map_cons, List.map_nil, h1, List.range_succ]
      · show s.CUR_ROUND + 1 ≤ N
        omega
      · intro c hc'
        simp only [List.mem_append, List.mem_singleton] at hc'
        rcases hc' with hc' | hc'
        · exact h3 c hc'
        · rw [hc']; exact hw.1
      · simp only [List.range_succ, List.foldl_append, List.foldl_cons, List.foldl_nil, h4]
      · intro v hv
        have := h5 v hv
        omega
  · exact ⟨h1, h2, h3, h4, h5⟩

theorem PoolInv_run {σ : Type} (N T : Nat) (body : Nat → σ → σ) (s0 : σ) (sched : List Nat)
    (s : PoolState σ) (h : PoolInv N T body s0 s) :
    PoolInv N T body s0 (run_workers N T body sched s) := by
  induction sched generalizing s with
  | nil => exact h
  | cons w rest ih => exact ih _ (PoolInv_step N T body s0 w s h)

/-- Once every worker has been joined, the shared state and the counter are
those of `run_pool` and `pool_counter`, whatever the schedule was. -/
theorem pool_joined_shared {σ : Type} (N T : Nat) (body : Nat → σ → σ) (s0 : σ)
    (sched : List Nat)
    (hj : all_stopped T (run_workers N T body sched (PoolState.start s0))) (hT : 0 < T) :
    (run_workers N T body sched (PoolState.start s0)).shared = run_pool N T body s0 ∧
    (run_workers N T body sched (PoolState.start s0)).CUR_ROUND = pool_counter N T := by
  obtain ⟨_, h2, _, h4, h5⟩ := PoolInv_run N T body s0 sched _ (PoolInv_start N T body s0)
  have hc := h5 0 (hj 0 hT)
  have e : (run_workers N T body sched (PoolState.start s0)).CUR_ROUND = N := by omega
  rw [h4, e]
  simp [run_pool, pool_counter, hT]

theorem run_workers_snoc {σ : Type} (N T : Nat) (body : Nat → σ → σ) (l : List Nat)
    (a : Nat) (s : PoolState σ) :
    run_workers N T body (l ++ [a]) s = worker_step N T body a (run_workers N T body l s) := by
  simp [run_workers, List.foldl_append]

/-- A worker that has not left its loop has claimed a round at each of its turns. -/
theorem pool_turns {σ : Type} (N T : Nat) (body : Nat → σ → σ) (s0 : σ) (sched : List Nat)
    (w : Nat) (hw : w < T) :
    w ∈ (run_workers N T body sched (PoolState.start s0)).stopped ∨
    sched.count w =
      ((run_workers N T body sched (PoolState.start s0)).claims.map Prod.fst).count w := by
  induction sched using List.reverseRecOn with
  | nil => right; simp [run_workers, PoolState.start]
  | append_singleton l a ih =>
    rw [run_workers_snoc]
    generalize run_workers N T body l (PoolState.start s0) = s at *
    unfold worker_step
    split
    · rename_i ha
      split
      · by_cases e : w = a
        · left; simp [e]
        · rcases ih with ih | ih
          · left; simp [ih]
          · right
            simp only [List.count_append, List.count_cons, List.count_nil, ih]
            have : ¬ (a == w) = true := by simpa using fun h => e h.symm
            simp [this]
      · rcases ih with ih | ih
        · left; exact ih
        · right
          simp only [List.map_append, List.map_cons, List.map_nil, List.count_append, ih]
    · rename_i ha
      by_cases e : w = a
      · left
        subst e
        by_contra hn
        exact ha ⟨hw, hn⟩
      · rcases ih with ih | ih
        · left; exact ih
        · right
          have : ¬ (a == w) = true := by simpa using fun h => e h.symm
          simp only [List.count_append, List.count_cons, List.count_nil, ih]
          simp [this]

/-- C9. Round work queue: from `CUR_ROUND = 0`, for every positive number
`T` of workers and every schedule of their turns (each turn is one atomic
claim step), the indices claimed so far are exactly `0 .. CUR_ROUND-1` in
increasing order, each claimed once and by a worker of the pool; the
counter never exceeds `NUM_ROUNDS` and no index `>= NUM_ROUNDS` is claimed;
when all workers have left their loops every index below `NUM_ROUNDS` has
been claimed exactly once; a worker that finds the counter exhausted leaves
its loop without running a round body; and every schedule that gives each
worker at least `NUM_ROUNDS + 1` turns ends with all workers out. -/
theorem round_work_queue {σ : Type} (N T : Nat) (body : Nat → σ → σ) (s0 : σ)
    (sched : List Nat) (s : PoolState σ) (hT : 0 < T)
    (hs : s = run_workers N T body sched (PoolState.start s0)) :
    s.claims.map Prod.snd = List.range s.CUR_ROUND ∧
    s.CUR_ROUND ≤ N ∧
    (∀ c, c ∈ s.claims → c.1 < T ∧ c.2 < N) ∧
    (∀ r, r < s.CUR_ROUND → (s.claims.map Prod.snd).count r = 1) ∧
    (all_stopped T s → s.CUR_ROUND = N ∧ s.claims.map Prod.snd = List.range N ∧
      ∀ r, r < N → (s.claims.map Prod.snd).count r = 1) ∧
    (∀ w, w < T → w ∉ s.stopped → N ≤ s.CUR_ROUND →
      worker_step N T body w s = { s with stopped := w :: s.stopped }) ∧
    ((∀ w, w < T → N + 1 ≤ sched.count w) → all_stopped T s) := by
  have inv := PoolInv_run N T body s0 sched _ (PoolInv_start N T body s0)
  rw [← hs] at inv
  obtain ⟨h1, h2, h3, h4, h5⟩ := inv
  have cnt : ∀ r, r < s.CUR_ROUND → (s.claims.map Prod.snd).count r = 1 := by
    intro r hr
    rw [h1]
    exact List.count_eq_one_of_mem (List.nodup_range _) (List.mem_range.2 hr)
  refine ⟨h1, h2, ?_, cnt, ?_, ?_, ?_⟩
  · intro c hc
    refine ⟨h3 c hc, ?_⟩
    have : c.2 ∈ s.claims.map Prod.snd := List.mem_map_of_mem _ hc
    rw [h1, List.mem_range] at this
    omega
  · intro hj
    have e : s.CUR_ROUND = N := by
      have := h5 0 (hj 0 hT)
      omega
    refine ⟨e, by rw [h1, e], ?_⟩
    intro r hr
    exact cnt r (by omega)
  · intro w hw hns hc
    unfold worker_step
    rw [if_pos ⟨hw, hns⟩, if_pos hc]
  · intro hfair w hw
    have t := pool_turns N T body s0 sched w hw
    rw [← hs] at t
    rcases t with t | t
    · exact t
    · exfalso
      have l1 : ((s.claims.map Prod.fst).count w) ≤ (s.claims.map Prod.fst).length :=
        List.count_le_length _ _
      have l2 : (s.claims.map Prod.snd).length = s.CUR_ROUND := by
        rw [h1, List.length_range]
      simp only [List.length_map] at l1 l2
      have := hfair w hw
      omega

/-- Instance of `round_work_queue`: three rounds, two workers taking turns
alternately, the round body recording its index. -/
theorem round_work_queue_witness :
    (run_workers 3 2 (fun r (l : List Nat) => l ++ [r]) [0, 1, 0, 1, 0, 1, 0, 1]
      (PoolState.start [])).claims.map Prod.snd = List.range 3 :=
  ((round_work_queue 3 2 (fun r (l : List Nat) => l ++ [r]) [] [0, 1, 0, 1, 0, 1, 0, 1] _
    (by decide) rfl).2.2.2.2.1
    ((round_work_queue 3 2 (fun r (l : List Nat) => l ++ [r]) [] [0, 1, 0, 1, 0, 1, 0, 1] _
      (by decide) rfl).2.2.2.2.2.2 (by decide))).2.1

/-! ## Verifier: effect of one round on the globals -/

theorem bump_bit0_errorCount (g : Globals) : (bump_bit0 g).errorCount = g.errorCount := by
  unfold bump_bit0; split <;> rfl

theorem bump_bit1_errorCount (g : Globals) : (bump_bit1 g).errorCount = g.errorCount := by
  unfold bump_bit1; split <;> rfl

theorem bump_bit0_flags (g : Globals) :
    (bump_bit0 g).verifyBatchC = g.verifyBatchC ∧
    (bump_bit0 g).decompressionBatch = g.decompressionBatch ∧
    (bump_bit0 g).NUM_THREADS = g.NUM_THREADS := by
  unfold bump_bit0; split <;> exact ⟨rfl, rfl, rfl⟩

theorem bump_bit1_flags (g : Globals) :
    (bump_bit1 g).verifyBatchC.isSome = g.verifyBatchC.isSome ∧
    (bump_bit1 g).decompressionBatch.isSome = g.decompressionBatch.isSome ∧
    (bump_bit1 g).NUM_THREADS = g.NUM_THREADS := by
  unfold bump_bit1
  split
  · rename_i c hc
    refine ⟨by simp [hc], ?_, rfl⟩
    cases g.decompressionBatch <;> rfl
  · exact ⟨rfl, rfl, rfl⟩

/-- Globals after the bit-1 branch: the `batchSize` increments, and
`errorCount` advanced by `round_errors`. -/
theorem verify_round_bit1_fst (P : Primitives) (par : Params) (tpv : thread_params_verify)
    (r bit : Nat) (g : Globals) :
    (verify_round_bit1 P par tpv r bit g).1 =
      { bump_bit1 g with
        errorCount := g.errorCount +
          ((bit1_point P par tpv r g.decompressionBatch.isSome).1 +
            (if tpv.sig.compressed &&
                !(bit1_verified P par tpv r g.decompressionBatch.isSome g.verifyBatchC.isSome)
              then 1 else 0)) } := by
  unfold verify_round_bit1
  simp only [(bump_bit1_flags g).1, (bump_bit1_flags g).2.1, bump_bit1_errorCount]
  by_cases hc : tpv.sig.compressed = true
  · by_cases hv : bit1_verified P par tpv r g.decompressionBatch.isSome
        g.verifyBatchC.isSome = true
    · simp [hc, hv]
    · simp only [Bool.not_eq_true] at hv
      simp [hc, hv, Nat.add_assoc]
  · simp only [Bool.not_eq_true] at hc
    simp [hc]

/-- Shape of the globals after one round: the `batchSize` increments of the
branch, and `errorCount` advanced by `round_errors`. -/
theorem verify_round_fst (P : Primitives) (par : Params) (tpv : thread_params_verify)
    (r : Nat) (g : Globals) :
    (verify_round P par tpv r g).1 =
      { (if challenge_bit tpv.cHash r = 0 then bump_bit0 g else bump_bit1 g) with
        errorCount := g.errorCount +
          round_errors P par tpv r g.decompressionBatch.isSome g.verifyBatchC.isSome } := by
  unfold verify_round round_errors
  by_cases hb : challenge_bit tpv.cHash r = 0
  · simp only [hb, if_true]
    show bump_bit0 g = { bump_bit0 g with errorCount := g.errorCount + 0 }
    rw [Nat.add_zero, ← bump_bit0_errorCount]
  · simp only [hb, if_false]
    exact verify_round_bit1_fst P par tpv r _ g

theorem verify_round_shape (P : Primitives) (par : Params) (tpv : thread_params_verify)
    (r : Nat) (g : Globals) :
    ∃ e, (verify_round P par tpv r g).1 =
      { (if challenge_bit tpv.cHash r = 0 then bump_bit0 g else bump_bit1 g) with
        errorCount := g.errorCount + e } :=
  ⟨_, verify_round_fst P par tpv r g⟩

theorem zero_bits_succ (cHash : Bytes) (k : Nat) :
    zero_bits cHash (k + 1) = zero_bits cHash k + (if challenge_bit cHash k = 0 then 1 else 0) := by
  unfold zero_bits
  rw [List.range_succ, List.filter_append, List.length_append]
  by_cases h : challenge_bit cHash k = 0 <;> simp [List.filter, h]

theorem one_bits_succ (cHash : Bytes) (k : Nat) :
    one_bits cHash (k + 1) = one_bits cHash k + (if challenge_bit cHash k = 0 then 0 else 1) := by
  unfold one_bits
  rw [List.range_succ, List.filter_append, List.length_append]
  by_cases h : challenge_bit cHash k = 0 <;> simp [List.filter, h]

/-- Batches after the rounds `0 .. k-1` have run, when all four batches of a
batched call exist at the start. -/
theorem verify_rounds_batches (P : Primitives) (par : Params) (tpv : thread_params_verify)
    (g : Globals) (a b c : batch_struct) (hA : g.verifyBatchA = some a)
    (hB : g.verifyBatchB = some b) (hC : g.verifyBatchC = some c) (k : Nat) :
    ((List.range k).foldl (fun st r => (verify_round P par tpv r st).1) g).verifyBatchA =
      some { a with batchSize := a.batchSize + zero_bits tpv.cHash k } ∧
    ((List.range k).foldl (fun st r => (verify_round P par tpv r st).1) g).verifyBatchB =
      some { b with batchSize := b.batchSize + zero_bits tpv.cHash k } ∧
    ((List.range k).foldl (fun st r => (verify_round P par tpv r st).1) g).verifyBatchC =
      some { c with batchSize := c.batchSize + one_bits tpv.cHash k } ∧
    ((List.range k).foldl (fun st r => (verify_round P par tpv r st).1) g).decompressionBatch =
      g.decompressionBatch.map
        (fun d => { d with batchSize := d.batchSize + one_bits tpv.cHash k }) := by
  induction k with
  | zero =>
    simp only [List.range_zero, List.foldl_nil, zero_bits, one_bits, List.filter_nil,
      List.length_nil, Nat.add_zero, hA, hB, hC]
    refine ⟨trivial, trivial, trivial, ?_⟩
    cases g.decompressionBatch <;> rfl
  | succ k ih =>
    obtain ⟨iA, iB, iC, iD⟩ := ih
    rw [List.range_succ, List.foldl_append]
    simp only [List.foldl_cons, List.foldl_nil]
    generalize (List.range k).foldl (fun st r => (verify_round P par tpv r st).1) g = G at *
    obtain ⟨e, he⟩ := verify_round_shape P par tpv k G
    rw [he, zero_bits_succ, one_bits_succ]
    by_cases hb : challenge_bit tpv.cHash k = 0
    · simp only [hb, if_true, Nat.add_zero]
      simp only [bump_bit0, iA, iB, iC, iD, bump, Nat.add_assoc]
      exact ⟨trivial, trivial, trivial, trivial⟩
    · simp only [hb, if_false, Nat.add_zero]
      simp only [bump_bit1, iA, iB, iC, iD, bump, Nat.add_assoc]
      refine ⟨trivial, trivial, trivial, ?_⟩
      cases g.decompressionBatch <;> rfl

/-! ## Verifier: batches -/

theorem isogeny_verify_run (P : Primitives) (par : Params) (curve : CurveIsogenyStruct)
    (pk : List f2elm_t) (sig : Signature) (batched compressed : Bool) (g : Globals)
    (hm : ∀ m, P.pthread_mutex_init m = 0) :
    (isogeny_verify P par curve pk sig batched compressed g).globals =
      verify_joined P par curve pk sig batched compressed g ∧
    (isogeny_verify P par curve pk sig batched compressed g).Status =
      if (verify_joined P par curve pk sig batched compressed g).errorCount > 0 then
        CRYPTO_ERROR_INVALID_ORDER else CRYPTO_SUCCESS := by
  unfold isogeny_verify
  simp only [hm, ne_eq, not_true_eq_false, if_false]
  split <;> exact ⟨rfl, rfl⟩

/-- C10 (as amended). In a batched `isogeny_verify` call the batches
`verifyBatchA`, `verifyBatchB`, `verifyBatchC` (and `decompressionBatch`
when `compressed`) are created with `batchSize = 0` and arrays of the global
`batchSize` elements; the workers add one to the `batchSize` of A and B for
every bit-0 round and one to that of C (and of `decompressionBatch`) for
every bit-1 round, so that when all workers have been joined A and B hold
the number of zero bits and C (and `decompressionBatch`) the number of one
bits among the `NUM_ROUNDS` challenge bits. -/
theorem verify_batch_sizing (P : Primitives) (par : Params) (curve : CurveIsogenyStruct)
    (pk : List f2elm_t) (sig : Signature) (compressed : Bool) (g : Globals)
    (hm : ∀ m, P.pthread_mutex_init m = 0) (hT : 0 < g.NUM_THREADS) :
    ((verify_setup (verify_cHash P par curve sig) true compressed g).verifyBatchA =
        some { batchSize := 0, cntr := 0, capacity := g.batchSize } ∧
      (verify_setup (verify_cHash P par curve sig) true compressed g).verifyBatchB =
        some { batchSize := 0, cntr := 0, capacity := g.batchSize } ∧
      (verify_setup (verify_cHash P par curve sig) true compressed g).verifyBatchC =
        some { batchSize := 0, cntr := 0, capacity := g.batchSize } ∧
      (verify_setup (verify_cHash P par curve sig) true compressed g).decompressionBatch =
        if compressed then some { batchSize := 0, cntr := 0, capacity := g.batchSize }
        else none) ∧
    (batchSize_of (isogeny_verify P par curve pk sig true compressed g).globals.verifyBatchA =
        some (zero_bits (verify_cHash P par curve sig) par.NUM_ROUNDS) ∧
      batchSize_of (isogeny_verify P par curve pk sig true compressed g).globals.verifyBatchB =
        some (zero_bits (verify_cHash P par curve sig) par.NUM_ROUNDS) ∧
      batchSize_of (isogeny_verify P par curve pk sig true compressed g).globals.verifyBatchC =
        some (one_bits (verify_cHash P par curve sig) par.NUM_ROUNDS) ∧
      batchSize_of
          (isogeny_verify P par curve pk sig true compressed g).globals.decompressionBatch =
        if compressed then some (one_bits (verify_cHash P par curve sig) par.NUM_ROUNDS)
        else none) := by
  refine ⟨⟨rfl, rfl, rfl, rfl⟩, ?_⟩
  rw [(isogeny_verify_run P par curve pk sig true compressed g hm).1]
  obtain ⟨bA, bB, bC, bD⟩ := verify_rounds_batches P par
    (verify_params P par curve pk sig compressed)
    (verify_setup (verify_cHash P par curve sig) true compressed g)
    { batchSize := 0, cntr := 0, capacity := g.batchSize }
    { batchSize := 0, cntr := 0, capacity := g.batchSize }
    { batchSize := 0, cntr := 0, capacity := g.batchSize } rfl rfl rfl par.NUM_ROUNDS
  have hT2 : 0 < (verify_setup (verify_cHash P par curve sig) true compressed g).NUM_THREADS :=
    hT
  simp only [verify_joined, run_pool, hT2, if_true, bA, bB, bC, bD, batchSize_of,
    Option.map_some', Nat.zero_add]
  refine ⟨rfl, rfl, rfl, ?_⟩
  cases compressed <;> simp [verify_setup, verify_batch, verify_params]

/-- Instance of `verify_batch_sizing`: the compressed example signature. -/
theorem verify_batch_sizing_witness :
    batchSize_of (isogeny_verify toy_primitives toy_params toy_curve (toy_PublicKey [4])
        (toy_signed [4] true).sig true true Globals.initial).globals.verifyBatchA =
      some (zero_bits (verify_cHash toy_primitives toy_params toy_curve (toy_signed [4] true).sig)
        toy_params.NUM_ROUNDS) :=
  (verify_batch_sizing toy_primitives toy_params toy_curve (toy_PublicKey [4]) (toy_signed [4] true).sig
    true Globals.initial (fun _ => rfl) (by decide)).2.1

/-- C10 (counterexample). For the compressed example signature the challenge
is `[192]`, with six zero bits and two one bits among its eight bits, yet
at the point where the first worker is created `verifyBatchA`,
`verifyBatchB`, `verifyBatchC` and `decompressionBatch` all have
`batchSize = 0`. -/
theorem verify_batch_sizing_counterexample :
    verify_cHash toy_primitives toy_params toy_curve (toy_signed [4] true).sig = [192] ∧
    zero_bits [192] 8 = 6 ∧ one_bits [192] 8 = 2 ∧
    batchSize_of (verify_setup [192] true true Globals.initial).verifyBatchA = some 0 ∧
    batchSize_of (verify_setup [192] true true Globals.initial).verifyBatchB = some 0 ∧
    batchSize_of (verify_setup [192] true true Globals.initial).verifyBatchC = some 0 ∧
    batchSize_of (verify_setup [192] true true Globals.initial).decompressionBatch = some 0 ∧
    batchSize_of (verify_setup [192] true true Globals.initial).verifyBatchA
      ≠ some (zero_bits [192] 8) ∧
    batchSize_of (verify_setup [192] true true Globals.initial).verifyBatchC
      ≠ some (one_bits [192] 8) := by
  refine ⟨by decide, by decide, by decide, rfl, rfl, rfl, rfl, by decide, by decide⟩

/-! ## Verifier: the error counter and the verdict -/

theorem verify_round_flags (P : Primitives) (par : Params) (tpv : thread_params_verify)
    (r : Nat) (g : Globals) :
    (verify_round P par tpv r g).1.verifyBatchC.isSome = g.verifyBatchC.isSome ∧
    (verify_round P par tpv r g).1.decompressionBatch.isSome = g.decompressionBatch.isSome ∧
    (verify_round P par tpv r g).1.errorCount = g.errorCount +
      round_errors P par tpv r g.decompressionBatch.isSome g.verifyBatchC.isSome := by
  rw [verify_round_fst]
  by_cases hb : challenge_bit tpv.cHash r = 0
  · simp only [hb, if_true]
    exact ⟨by rw [(bump_bit0_flags g).1], by rw [(bump_bit0_flags g).2.1], trivial⟩
  · simp only [hb, if_false]
    exact ⟨(bump_bit1_flags g).1, (bump_bit1_flags g).2.1, trivial⟩

/-- The error counter after the rounds `0 .. k-1`: the sum of the per-round
error counts. -/
theorem verify_rounds_errorCount (P : Primitives) (par : Params) (tpv : thread_params_verify)
    (g : Globals) (k : Nat) :
    ((List.range k).foldl (fun st r => (verify_round P par tpv r st).1) g).verifyBatchC.isSome
      = g.verifyBatchC.isSome ∧
    ((List.range k).foldl (fun st r => (verify_round P par tpv r st).1)
      g).decompressionBatch.isSome = g.decompressionBatch.isSome ∧
    ((List.range k).foldl (fun st r => (verify_round P par tpv r st).1) g).errorCount =
      g.errorCount + ((List.range k).map (fun r =>
        round_errors P par tpv r g.decompressionBatch.isSome g.verifyBatchC.isSome)).sum := by
  induction k with
  | zero => simp
  | succ k ih =>
    obtain ⟨i1, i2, i3⟩ := ih
    rw [List.range_succ, List.foldl_append]
    simp only [List.foldl_cons, List.foldl_nil, List.map_append, List.map_cons, List.map_nil,
      List.sum_append, List.sum_cons, List.sum_nil, Nat.add_zero]
    generalize (List.range k).foldl (fun st r => (verify_round P par tpv r st).1) g = G at *
    obtain ⟨f1, f2, f3⟩ := verify_round_flags P par tpv k G
    refine ⟨by rw [f1, i1], by rw [f2, i2], ?_⟩
    rw [f3, i3, i1, i2, Nat.add_assoc]

theorem verify_setup_flags (cHash : Bytes) (batched compressed : Bool) (g : Globals) :
    (verify_setup cHash batched compressed g).verifyBatchC.isSome = batched ∧
    (verify_setup cHash batched compressed g).decompressionBatch.isSome
      = (batched && compressed) ∧
    (verify_setup cHash batched compressed g).errorCount = 0 ∧
    (verify_setup cHash batched compressed g).NUM_THREADS = g.NUM_THREADS := by
  unfold verify_setup
  cases batched <;> cases compressed <;> exact ⟨rfl, rfl, rfl, rfl⟩

/-- The error counter at join: the sum over all rounds of the per-round
error counts. -/
theorem verify_joined_errorCount (P : Primitives) (par : Params) (curve : CurveIsogenyStruct)
    (pk : List f2elm_t) (sig : Signature) (batched compressed : Bool) (g : Globals)
    (hT : 0 < g.NUM_THREADS) :
    (verify_joined P par curve pk sig batched compressed g).errorCount =
      ((List.range par.NUM_ROUNDS).map (fun r =>
        round_errors P par (verify_params P par curve pk sig compressed) r
          (batched && compressed) batched)).sum := by
  obtain ⟨s1, s2, s3, s4⟩ := verify_setup_flags (verify_cHash P par curve sig) batched
    compressed g
  obtain ⟨_, _, e⟩ := verify_rounds_errorCount P par (verify_params P par curve pk sig compressed)
    (verify_setup (verify_cHash P par curve sig) batched compressed g) par.NUM_ROUNDS
  unfold verify_joined run_pool
  simp only [s4, hT, if_true]
  rw [e, s1, s2, s3, Nat.zero_add]

/-- Verdict of `isogeny_verify`: success exactly when no round executes an
`errorCount++`, and `CRYPTO_ERROR_INVALID_ORDER` otherwise. -/
theorem isogeny_verify_verdict (P : Primitives) (par : Params) (curve : CurveIsogenyStruct)
    (pk : List f2elm_t) (sig : Signature) (batched compressed : Bool) (g : Globals)
    (hm : ∀ m, P.pthread_mutex_init m = 0) (hT : 0 < g.NUM_THREADS) :
    ((isogeny_verify P par curve pk sig batched compressed g).Status = CRYPTO_SUCCESS ↔
      ∀ r, r < par.NUM_ROUNDS →
        round_errors P par (verify_params P par curve pk sig compressed) r
          (batched && compressed) batched = 0) ∧
    ((isogeny_verify P par curve pk sig batched compressed g).Status ≠ CRYPTO_SUCCESS →
      (isogeny_verify P par curve pk sig batched compressed g).Status
        = CRYPTO_ERROR_INVALID_ORDER) := by
  rw [(isogeny_verify_run P par curve pk sig batched compressed g hm).2,
    verify_joined_errorCount P par curve pk sig batched compressed g hT]
  constructor
  · constructor
    · intro h r hr
      by_contra hne
      have hmem : round_errors P par (verify_params P par curve pk sig compressed) r
          (batched && compressed) batched ∈ (List.range par.NUM_ROUNDS).map (fun r =>
            round_errors P par (verify_params P par curve pk sig compressed) r
              (batched && compressed) batched) :=
        List.mem_map_of_mem _ (List.mem_range.2 hr)
      have hle := List.single_le_sum (fun _ _ => Nat.zero_le _) _ hmem
      rw [if_pos (by omega)] at h
      exact absurd h (by decide)
    · intro h
      have : ((List.range par.NUM_ROUNDS).map (fun r =>
            round_errors P par (verify_params P par curve pk sig compressed) r
              (batched && compressed) batched)).sum = 0 := by
        apply List.sum_eq_zero
        intro x hx
        obtain ⟨r, hr, rfl⟩ := List.mem_map.1 hx
        exact h r (List.mem_range.1 hr)
      rw [this]
      rfl
  · intro h
    split
    · rfl
    · rename_i hz
      rw [if_neg hz] at h
      exact absurd rfl h

/-! ## Signer: what a round leaves in the signature -/

theorem sign_round_spec (P : Primitives) (par : Params) (tps : thread_params_sign)
    (rng : Nat → Bytes) (r : Nat) (st : Globals × Signature) :
    (sign_round P par tps rng r st).1.signBatchA = st.1.signBatchA ∧
    (sign_round P par tps rng r st).1.signBatchB = st.1.signBatchB ∧
    (sign_round P par tps rng r st).1.compressionBatch = st.1.compressionBatch ∧
    (sign_round P par tps rng r st).2.compressed = tps.compressed ∧
    (sign_round P par tps rng r st).2.Commitments1 r =
      sign_A P tps rng r st.1.signBatchA.isSome ∧
    (sign_round P par tps rng r st).2.Commitments2 r =
      (sign_agreement P tps rng r st.1.signBatchA.isSome st.1.signBatchB.isSome).2.1 ∧
    (tps.compressed = true →
      (sign_round P par tps rng r st).2.compPsiS r =
        (sign_compression P tps rng r st.1.signBatchA.isSome st.1.signBatchB.isSome
          st.1.compressionBatch.isSome).2.1 ∧
      (sign_round P par tps rng r st).2.compBit r =
        (sign_compression P tps rng r st.1.signBatchA.isSome st.1.signBatchB.isSome
          st.1.compressionBatch.isSome).2.2) ∧
    (∀ q, q ≠ r →
      (sign_round P par tps rng r st).2.Commitments1 q = st.2.Commitments1 q ∧
      (sign_round P par tps rng r st).2.Commitments2 q = st.2.Commitments2 q ∧
      (sign_round P par tps rng r st).2.compPsiS q = st.2.compPsiS q ∧
      (sign_round P par tps rng r st).2.compBit q = st.2.compBit q) := by
  unfold sign_round
  by_cases hc : tps.compressed = true
  · simp only [hc, if_true]
    split
    · refine ⟨rfl, rfl, rfl, rfl, ?_, ?_, ?_, ?_⟩
      · simp
      · simp
      · intro _; simp
      · intro q hq; simp [Function.update_noteq hq]
    · refine ⟨rfl, rfl, rfl, rfl, ?_, ?_, ?_, ?_⟩
      · simp
      · simp
      · intro _; simp
      · intro q hq; simp [Function.update_noteq hq]
  · simp only [hc]
    refine ⟨rfl, rfl, rfl, ?_, ?_, ?_, ?_, ?_⟩
    · simp at hc; simp [hc]
    · simp
    · simp
    · intro h; cases h
    · intro q hq; simp [Function.update_noteq hq]

/-- The signature after the rounds `0 .. k-1` of the signer. -/
theorem sign_rounds_spec (P : Primitives) (par : Params) (tps : thread_params_sign)
    (rng : Nat → Bytes) (g : Globals) (sig : Signature) (k : Nat) :
    ((List.range k).foldl (fun st r => sign_round P par tps rng r st) (g, sig)).1.signBatchA
      = g.signBatchA ∧
    ((List.range k).foldl (fun st r => sign_round P par tps rng r st) (g, sig)).1.signBatchB
      = g.signBatchB ∧
    ((List.range k).foldl (fun st r => sign_round P par tps rng r st)
      (g, sig)).1.compressionBatch = g.compressionBatch ∧
    (0 < k →
      ((List.range k).foldl (fun st r => sign_round P par tps rng r st) (g, sig)).2.compressed
        = tps.compressed) ∧
    (∀ r, r < k →
      ((List.range k).foldl (fun st r => sign_round P par tps rng r st)
        (g, sig)).2.Commitments1 r = sign_A P tps rng r g.signBatchA.isSome ∧
      ((List.range k).foldl (fun st r => sign_round P par tps rng r st)
        (g, sig)).2.Commitments2 r =
          (sign_agreement P tps rng r g.signBatchA.isSome g.signBatchB.isSome).2.1 ∧
      (tps.compressed = true →
        ((List.range k).foldl (fun st r => sign_round P par tps rng r st)
          (g, sig)).2.compPsiS r =
            (sign_compression P tps rng r g.signBatchA.isSome g.signBatchB.isSome
              g.compressionBatch.isSome).2.1 ∧
        ((List.range k).foldl (fun st r => sign_round P par tps rng r st)
          (g, sig)).2.compBit r =
            (sign_compression P tps rng r g.signBatchA.isSome g.signBatchB.isSome
              g.compressionBatch.isSome).2.2)) := by
  induction k with
  | zero =>
    refine ⟨rfl, rfl, rfl, ?_, ?_⟩
    · intro h; omega
    · intro r hr; omega
  | succ k ih =>
    obtain ⟨iA, iB, iK, _, iS⟩ := ih
    rw [List.range_succ, List.foldl_append]
    simp only [List.foldl_cons, List.foldl_nil]
    generalize (List.range k).foldl (fun st r => sign_round P par tps rng r st) (g, sig) = st at *
    obtain ⟨sA, sB, sK, sC, s1, s2, s3, s4⟩ := sign_round_spec P par tps rng k st
    refine ⟨by rw [sA, iA], by rw [sB, iB], by rw [sK, iK], fun _ => sC, ?_⟩
    intro r hr
    by_cases e : r = k
    · subst e
      rw [s1, s2, iA, iB]
      refine ⟨rfl, rfl, ?_⟩
      intro hc
      rw [(s3 hc).1, (s3 hc).2, iA, iB, iK]
      exact ⟨rfl, rfl⟩
    · obtain ⟨q1, q2, q3, q4⟩ := s4 r e
      obtain ⟨j1, j2, j3⟩ := iS r (by omega)
      rw [q1, q2, q3, q4]
      exact ⟨j1, j2, j3⟩

/-! ## Round trip -/

theorem isogeny_sign_run (P : Primitives) (par : Params) (curve : CurveIsogenyStruct)
    (sk : Bytes) (pk : List f2elm_t) (sig0 : Signature) (batched compressed : Bool)
    (rng : Nat → Bytes) (g : Globals) (hm : ∀ m, P.pthread_mutex_init m = 0) :
    (isogeny_sign P par curve sk pk sig0 batched compressed rng g).Status = CRYPTO_SUCCESS ∧
    (isogeny_sign P par curve sk pk sig0 batched compressed rng g).globals =
      (sign_joined P par curve sk pk sig0 batched compressed rng g).1 ∧
    (isogeny_sign P par curve sk pk sig0 batched compressed rng g).sig.Commitments1 =
      (sign_joined P par curve sk pk sig0 batched compressed rng g).2.Commitments1 ∧
    (isogeny_sign P par curve sk pk sig0 batched compressed rng g).sig.Commitments2 =
      (sign_joined P par curve sk pk sig0 batched compressed rng g).2.Commitments2 ∧
    (isogeny_sign P par curve sk pk sig0 batched compressed rng g).sig.compPsiS =
      (sign_joined P par curve sk pk sig0 batched compressed rng g).2.compPsiS ∧
    (isogeny_sign P par curve sk pk sig0 batched compressed rng g).sig.compBit =
      (sign_joined P par curve sk pk sig0 batched compressed rng g).2.compBit ∧
    (isogeny_sign P par curve sk pk sig0 batched compressed rng g).sig.compressed =
      (sign_joined P par curve sk pk sig0 batched compressed rng g).2.compressed := by
  unfold isogeny_sign
  simp only [hm, ne_eq, not_true_eq_false, if_false]
  exact ⟨trivial, trivial, trivial, trivial, trivial, trivial, trivial⟩

theorem sign_setup_flags (batched compressed : Bool) (g : Globals) :
    (sign_setup batched compressed g).NUM_THREADS = g.NUM_THREADS := by
  unfold sign_setup
  cases batched <;> rfl

theorem verify_joined_errorCount_idle (P : Primitives) (par : Params)
    (curve : CurveIsogenyStruct) (pk : List f2elm_t) (sig : Signature)
    (batched compressed : Bool) (g : Globals) (hT : ¬ 0 < g.NUM_THREADS) :
    (verify_joined P par curve pk sig batched compressed g).errorCount = 0 := by
  obtain ⟨_, _, s3, s4⟩ := verify_setup_flags (verify_cHash P par curve sig) batched
    compressed g
  unfold verify_joined run_pool
  simp only [s4, hT, if_false]
  exact s3

theorem sign_setup_batches (batched compressed : Bool) (g : Globals) :
    (sign_setup batched compressed g).signBatchA.isSome = batched ∧
    (sign_setup batched compressed g).signBatchB.isSome = batched ∧
    (sign_setup batched compressed g).compressionBatch.isSome = (batched && compressed) := by
  unfold sign_setup
  cases batched <;> cases compressed <;> exact ⟨rfl, rfl, rfl⟩

/-- The signature slots after the signer has joined its workers. -/
theorem sign_joined_slots (P : Primitives) (par : Params) (curve : CurveIsogenyStruct)
    (sk : Bytes) (pk : List f2elm_t) (sig0 : Signature) (batched compressed : Bool)
    (rng : Nat → Bytes) (g : Globals) (hT : 0 < g.NUM_THREADS) (r : Nat)
    (hr : r < par.NUM_ROUNDS) :
    (sign_joined P par curve sk pk sig0 batched compressed rng g).2.compressed
      = compressed ∧
    (sign_joined P par curve sk pk sig0 batched compressed rng g).2.Commitments1 r =
      sign_A P (sign_params curve sk pk compressed) rng r batched ∧
    (sign_joined P par curve sk pk sig0 batched compressed rng g).2.Commitments2 r =
      (sign_agreement P (sign_params curve sk pk compressed) rng r batched batched).2.1 ∧
    (compressed = true →
      (sign_joined P par curve sk pk sig0 batched compressed rng g).2.compPsiS r =
        (sign_compression P (sign_params curve sk pk compressed) rng r batched batched
          (batched && compressed)).2.1 ∧
      (sign_joined P par curve sk pk sig0 batched compressed rng g).2.compBit r =
        (sign_compression P (sign_params curve sk pk compressed) rng r batched batched
          (batched && compressed)).2.2) := by
  obtain ⟨_, _, _, hc, hs⟩ := sign_rounds_spec P par (sign_params curve sk pk compressed) rng
    (sign_setup batched compressed { g with CUR_ROUND := 0, errorCount := 0 }) sig0
    par.NUM_ROUNDS
  have hT2 : 0 < (sign_setup batched compressed
      { g with CUR_ROUND := 0, errorCount := 0 }).NUM_THREADS := by
    rw [sign_setup_flags]; exact hT
  obtain ⟨f1, f2, f3⟩ := sign_setup_batches batched compressed
    { g with CUR_ROUND := 0, errorCount := 0 }
  obtain ⟨h1, h2, h3⟩ := hs r hr
  rw [f1, f2, f3] at h3
  rw [f1] at h1
  rw [f1, f2] at h2
  refine ⟨?_, ?_, ?_, ?_⟩
  · simp only [sign_joined, run_pool, hT2, if_true]
    exact hc (by omega)
  · simp only [sign_joined, run_pool, hT2, if_true]
    exact h1
  · simp only [sign_joined, run_pool, hT2, if_true]
    exact h2
  · intro hcomp
    simp only [sign_joined, run_pool, hT2, if_true]
    exact h3 hcomp

/-- C1. Sign-then-verify round trip: for each setting of `batched` and
`compressed`, when the signer has at least one worker and the mutexes
initialise, `isogeny_sign` returns `CRYPTO_SUCCESS` and `isogeny_verify` on
the signature it filled in, with the same flags, returns `CRYPTO_SUCCESS`,
provided the external primitives meet their contracts: the Montgomery
conversions are inverse to each other, `KeyGeneration_A` yields a valid
public key, `SecretAgreement_B` with the secret key yields a valid kernel
point ψ(S), decompression of a compressed valid kernel point succeeds with a
point generating the same kernel, and `SecretAgreement_B` with an explicit
kernel point generating the same kernel as ψ(S) reproduces the shared
secret. -/
theorem sign_verify_round_trip (P : Primitives) (par : Params) (curve : CurveIsogenyStruct)
    (sk : Bytes) (pk : List f2elm_t) (sig0 : Signature) (batched compressed : Bool)
    (rng : Nat → Bytes) (g gV : Globals)
    (validPub : List f2elm_t → Prop) (validKernel : point_proj → f2elm_t → Prop)
    (sameKernel : f2elm_t → point_proj → point_proj → Prop)
    (hm : ∀ m, P.pthread_mutex_init m = 0)
    (hT : 0 < g.NUM_THREADS)
    (hmont : ∀ x, P.from_fp2mont (P.to_fp2mont x) = x)
    (hkg : ∀ rnd b,
      validPub (P.KeyGeneration_A (zeros ((curve.owordbits + 7) / 8)) rnd curve true b).2.2)
    (hpsi : ∀ pub b, validPub pub →
      validKernel (P.SecretAgreement_B (some sk) pub curve none true b).2.2
        (P.to_fp2mont (pub.headD [])))
    (hcomp : ∀ K A b bD, validKernel K A →
      (P.decompressPsiS (P.compressPsiS K A curve b).2.1 (P.compressPsiS K A curve b).2.2 A
        curve bD).1 = CRYPTO_SUCCESS ∧
      sameKernel A (P.decompressPsiS (P.compressPsiS K A curve b).2.1
        (P.compressPsiS K A curve b).2.2 A curve bD).2 K)
    (hker : ∀ pub b K bC, validPub pub →
      sameKernel (P.to_fp2mont (pub.headD [])) K
        (P.SecretAgreement_B (some sk) pub curve none true b).2.2 →
      memcmp
        (P.SecretAgreement_B none
          [pub.headD [], zeros (2 * ((curve.pwordbits + 7) / 8)),
            zeros (2 * ((curve.pwordbits + 7) / 8)), zeros (2 * ((curve.pwordbits + 7) / 8))]
          curve (some K) false bC).2.1
        (P.SecretAgreement_B (some sk) pub curve none true b).2.1
        (2 * ((curve.pwordbits + 7) / 8)) = 0) :
    (isogeny_sign P par curve sk pk sig0 batched compressed rng g).Status = CRYPTO_SUCCESS ∧
    (isogeny_verify P par curve pk
      (isogeny_sign P par curve sk pk sig0 batched compressed rng g).sig batched compressed
      gV).Status = CRYPTO_SUCCESS := by
  obtain ⟨hS, _, e1, e2, e3, e4, e5⟩ :=
    isogeny_sign_run P par curve sk pk sig0 batched compressed rng g hm
  refine ⟨hS, ?_⟩
  by_cases hTV : 0 < gV.NUM_THREADS
  swap
  · rw [(isogeny_verify_run P par curve pk _ batched compressed gV hm).2,
      verify_joined_errorCount_idle P par curve pk _ batched compressed gV hTV]
    rfl
  rw [(isogeny_verify_verdict P par curve pk _ batched compressed gV hm hTV).1]
  intro r hr
  obtain ⟨s0, s1, s2, s3⟩ :=
    sign_joined_slots P par curve sk pk sig0 batched compressed rng g hT r hr
  rw [← e5] at s0
  rw [← e1] at s1
  rw [← e2] at s2
  rw [← e3, ← e4] at s3
  generalize (isogeny_sign P par curve sk pk sig0 batched compressed rng g).sig = sig at *
  unfold round_errors
  split
  · rfl
  · cases compressed with
    | false =>
      have hp : (bit1_point P par (verify_params P par curve pk sig false) r
          (batched && false)).1 = 0 := by
        simp [bit1_point, verify_params]
      rw [hp]
      simp [verify_params, s0]
    | true =>
      obtain ⟨c1, c2⟩ := s3 rfl
      simp only [Bool.and_true] at c1 c2 ⊢
      have vp := hkg (rng r) batched
      have vk := hpsi _ batched vp
      obtain ⟨d1, d2⟩ := hcomp _ _ batched batched vk
      have hk := hker _ batched _ batched vp d2
      have hd : (P.decompressPsiS (sig.compPsiS r) (sig.compBit r) (sig.Commitments1 r)
          curve batched).1 = CRYPTO_SUCCESS := by
        rw [c1, c2, s1]; exact d1
      have hp : bit1_point P par (verify_params P par curve pk sig true) r batched
          = (0, (P.decompressPsiS (sig.compPsiS r) (sig.compBit r) (sig.Commitments1 r) curve
              batched).2,
            (P.decompressPsiS (sig.compPsiS r) (sig.compBit r) (sig.Commitments1 r) curve
              batched).2) := by
        unfold bit1_point
        simp [verify_params, hd]
      have hv : bit1_verified P par (verify_params P par curve pk sig true) r
          batched batched = true := by
        unfold bit1_verified
        rw [hp]
        simp only [bit1_secret, verify_params, c1, c2, s1, s2, sign_A, hmont]
        split
        · rename_i hne
          exact absurd hk hne
        · rfl
      rw [hp, hv]
      simp

/-- Instance of `sign_verify_round_trip`: the compressed example with the
stand-in primitives, for which two points generate the same kernel when the
first bytes of their `X` agree. -/
theorem sign_verify_round_trip_witness :
    (isogeny_verify toy_primitives toy_params toy_curve (toy_PublicKey [4])
      (toy_signed [4] true).sig false true Globals.initial).Status = CRYPTO_SUCCESS :=
  (sign_verify_round_trip toy_primitives toy_params toy_curve [4] (toy_PublicKey [4])
    empty_signature false true toy_rng Globals.initial Globals.initial
    (fun _ => True) (fun _ _ => True) (fun _ K L => K.X.headD 0 = L.X.headD 0)
    (fun _ => rfl) (by decide) (fun x => List.reverse_reverse x)
    (fun _ _ => trivial) (fun _ _ _ => trivial)
    (fun _ _ _ _ _ => ⟨rfl, rfl⟩)
    (fun pub b K bC _ h => by
      have h2 : K.X.headD 0 = 4 := h
      simp only [toy_primitives, toy_SecretAgreement_B, memcmp, h2]
      exact if_pos rfl)).2

/-! ## Tampering -/

theorem flip_bit_take_ne (b : Bytes) (i k n : Nat) (hi : i < n) (hl : i < b.length) :
    (flip_bit b i k).take n ≠ b.take n := by
  intro h
  have h1 : ((flip_bit b i k).take n)[i]? = (b.take n)[i]? := by rw [h]
  rw [List.getElem?_take_of_lt hi, List.getElem?_take_of_lt hi] at h1
  unfold flip_bit at h1
  rw [List.getElem?_set_self hl, List.getElem?_eq_getElem hl] at h1
  have h2 : b.getD i 0 = b[i] := by
    rw [List.getD_eq_getElem?_getD, List.getElem?_eq_getElem hl]; rfl
  rw [h2] at h1
  have h3 : b[i] ^^^ (1 <<< k) = b[i] ^^^ 0 := by
    rw [Nat.xor_zero]; exact Option.some.inj h1
  have h4 := Nat.xor_right_injective h3
  rw [Nat.one_shiftLeft] at h4
  have := Nat.two_pow_pos k
  omega

theorem memcmp_flip_ne (a b : Bytes) (i k n : Nat) (hi : i < n) (hl : i < b.length)
    (h : memcmp a b n = 0) : memcmp a (flip_bit b i k) n ≠ 0 := by
  unfold memcmp at h ⊢
  by_cases e : a.take n = b.take n
  · have : ¬ a.take n = (flip_bit b i k).take n := by
      rw [e]; exact fun h2 => flip_bit_take_ne b i k n hi hl h2.symm
    rw [if_neg this]
    decide
  · rw [if_neg e] at h
    exact absurd h (by decide)

/-- C2 (as amended). Tamper-evidence for `Commitments2` in compressed
signatures: when round `r` of a signature with `compressed` set passes the
comparison of the bit-1 branch of a compressed verification (the shared
secret recomputed from `Commitments1[r]` and the decompressed point equals
`Commitments2[r]`), flipping any bit of one
of the first `2*pbytes` bytes of `Commitments2[r]` makes `isogeny_verify`
return `CRYPTO_ERROR_INVALID_ORDER`, provided the challenge recomputed from
the modified signature has bit 1 for round `r`. -/
theorem tamper_commitment2_detected (P : Primitives) (par : Params)
    (curve : CurveIsogenyStruct) (pk : List f2elm_t) (sig : Signature) (batched : Bool)
    (g : Globals) (r i k : Nat)
    (hm : ∀ m, P.pthread_mutex_init m = 0) (hT : 0 < g.NUM_THREADS)
    (hr : r < par.NUM_ROUNDS) (hc : sig.compressed = true)
    (hi : i < 2 * ((curve.pwordbits + 7) / 8)) (hl : i < (sig.Commitments2 r).length)
    (hver : bit1_verified P par (verify_params P par curve pk sig true) r batched batched
      = true)
    (hbit : challenge_bit (verify_cHash P par curve
      { sig with Commitments2 :=
          Function.update sig.Commitments2 r (flip_bit (sig.Commitments2 r) i k) }) r ≠ 0) :
    (isogeny_verify P par curve pk
      { sig with Commitments2 :=
          Function.update sig.Commitments2 r (flip_bit (sig.Commitments2 r) i k) }
      batched true g).Status = CRYPTO_ERROR_INVALID_ORDER := by
  obtain ⟨v1, v2⟩ := isogeny_verify_verdict P par curve pk
    { sig with Commitments2 :=
        Function.update sig.Commitments2 r (flip_bit (sig.Commitments2 r) i k) }
    batched true g hm hT
  apply v2
  intro hS
  have h0 := (v1.1 hS) r hr
  have hv : bit1_verified P par (verify_params P par curve pk
      { sig with Commitments2 :=
          Function.update sig.Commitments2 r (flip_bit (sig.Commitments2 r) i k) } true) r
      batched batched = false := by
    have hm0 : memcmp (bit1_secret P (verify_params P par curve pk sig true) r
        (bit1_point P par (verify_params P par curve pk sig true) r batched).2.2 batched)
        (sig.Commitments2 r) (2 * ((curve.pwordbits + 7) / 8)) = 0 := by
      by_contra hne
      unfold bit1_verified at hver
      simp only [verify_params] at hver hne
      rw [if_pos hne] at hver
      exact absurd hver (by decide)
    have hne := memcmp_flip_ne _ _ i k _ hi hl hm0
    unfold bit1_verified
    simp only [verify_params, Function.update_same]
    simp only [verify_params] at hne
    exact if_pos hne
  have hb : ¬ challenge_bit (verify_params P par curve pk
      { sig with Commitments2 :=
          Function.update sig.Commitments2 r (flip_bit (sig.Commitments2 r) i k) } true).cHash
      r = 0 := hbit
  unfold round_errors at h0
  simp only [Bool.and_true] at h0
  rw [if_neg hb, hv] at h0
  simp only [verify_params, hc] at h0
  simp at h0

/-- Instance of `tamper_commitment2_detected`: the low bit of
`Commitments2[6]` of the compressed example signature. -/
theorem tamper_commitment2_detected_witness :
    (isogeny_verify toy_primitives toy_params toy_curve (toy_PublicKey [4])
      { (toy_signed [4] true).sig with
        Commitments2 := Function.update (toy_signed [4] true).sig.Commitments2 6
          (flip_bit ((toy_signed [4] true).sig.Commitments2 6) 0 0) }
      false true Globals.initial).Status = CRYPTO_ERROR_INVALID_ORDER :=
  tamper_commitment2_detected toy_primitives toy_params toy_curve (toy_PublicKey [4])
    (toy_signed [4] true).sig false Globals.initial 6 0 0 (fun _ => rfl) (by decide)
    (by decide) (by decide) (by decide) (by decide) (by decide) (by decide)

/-- C2 (counterexample). The compressed example signature is accepted, and
it is still accepted after the low bit of `HashResp[0]` has been flipped
(the recomputed challenge changes from `[192]` to `[193]`, and every round
then ends with `verified` set, an even random and no break of the tripling
loop), and after the low bit of `Randoms[7]` has been flipped (round 7 has
challenge bit 1, so `Randoms[7]` is not read). -/
theorem tamper_evidence_counterexample :
    toy_verify (toy_PublicKey [4]) (toy_signed [4] true).sig false true = CRYPTO_SUCCESS ∧
    sig_flip_HashResp.HashResp ≠ (toy_signed [4] true).sig.HashResp ∧
    verify_cHash toy_primitives toy_params toy_curve sig_flip_HashResp = [193] ∧
    (∀ r, r < 8 →
      toy_round (toy_PublicKey [4]) sig_flip_HashResp false true r =
        { bit := challenge_bit [193] r, verified := true, oddRandom := false,
          orderBreak := none }) ∧
    toy_verify (toy_PublicKey [4]) sig_flip_HashResp false true = CRYPTO_SUCCESS ∧
    sig_flip_Randoms.Randoms 7 ≠ (toy_signed [4] true).sig.Randoms 7 ∧
    challenge_bit (verify_cHash toy_primitives toy_params toy_curve sig_flip_Randoms) 7 ≠ 0 ∧
    toy_verify (toy_PublicKey [4]) sig_flip_Randoms false true = CRYPTO_SUCCESS := by
  refine ⟨by decide, by decide, by decide, by decide, by decide, by decide, by decide,
    by decide⟩

/-! ## Signer: the error counter -/

theorem sign_round_errorCount (P : Primitives) (par : Params) (tps : thread_params_sign)
    (rng : Nat → Bytes) (r : Nat) (st : Globals × Signature) :
    (sign_round P par tps rng r st).1.errorCount = st.1.errorCount +
      sign_round_errors P tps rng r st.1.signBatchA.isSome st.1.signBatchB.isSome
        st.1.compressionBatch.isSome := by
  unfold sign_round sign_round_errors
  by_cases hc : tps.compressed = true
  · by_cases hs : (sign_compression P tps rng r st.1.signBatchA.isSome st.1.signBatchB.isSome
        st.1.compressionBatch.isSome).1 = CRYPTO_SUCCESS
    · simp [hc, hs]
    · simp [hc, hs]
  · simp only [Bool.not_eq_true] at hc
    simp [hc]

/-- The error counter after the rounds `0 .. k-1` of the signer: only failures
of `compressPsiS` are counted. -/
theorem sign_rounds_errorCount (P : Primitives) (par : Params) (tps : thread_params_sign)
    (rng : Nat → Bytes) (g : Globals) (sig : Signature) (k : Nat) :
    ((List.range k).foldl (fun st r => sign_round P par tps rng r st) (g, sig)).1.errorCount =
      g.errorCount + ((List.range k).map (fun r =>
        sign_round_errors P tps rng r g.signBatchA.isSome g.signBatchB.isSome
          g.compressionBatch.isSome)).sum := by
  induction k with
  | zero => simp
  | succ k ih =>
    obtain ⟨iA, iB, iK, _, _⟩ := sign_rounds_spec P par tps rng g sig k
    rw [List.range_succ, List.foldl_append]
    simp only [List.foldl_cons, List.foldl_nil, List.map_append, List.map_cons, List.map_nil,
      List.sum_append, List.sum_cons, List.sum_nil, Nat.add_zero]
    rw [sign_round_errorCount, ih, iA, iB, iK, Nat.add_assoc]

/-- The error counter left by `isogeny_sign`: the number of rounds in which
`compressPsiS` reported a failure, whatever the other primitives reported;
the returned status is `CRYPTO_SUCCESS` in every case. -/
theorem isogeny_sign_errorCount (P : Primitives) (par : Params) (curve : CurveIsogenyStruct)
    (sk : Bytes) (pk : List f2elm_t) (sig0 : Signature) (batched compressed : Bool)
    (rng : Nat → Bytes) (g : Globals) (hm : ∀ m, P.pthread_mutex_init m = 0)
    (hT : 0 < g.NUM_THREADS) :
    (isogeny_sign P par curve sk pk sig0 batched compressed rng g).Status = CRYPTO_SUCCESS ∧
    (isogeny_sign P par curve sk pk sig0 batched compressed rng g).globals.errorCount =
      ((List.range par.NUM_ROUNDS).map (fun r =>
        sign_round_errors P (sign_params curve sk pk compressed) rng r batched batched
          (batched && compressed))).sum := by
  obtain ⟨hS, hG, _⟩ := isogeny_sign_run P par curve sk pk sig0 batched compressed rng g hm
  refine ⟨hS, ?_⟩
  rw [hG]
  have hT2 : 0 < (sign_setup batched compressed
      { g with CUR_ROUND := 0, errorCount := 0 }).NUM_THREADS := by
    rw [sign_setup_flags]; exact hT
  obtain ⟨f1, f2, f3⟩ := sign_setup_batches batched compressed
    { g with CUR_ROUND := 0, errorCount := 0 }
  have e := sign_rounds_errorCount P par (sign_params curve sk pk compressed) rng
    (sign_setup batched compressed { g with CUR_ROUND := 0, errorCount := 0 }) sig0
    par.NUM_ROUNDS
  rw [f1, f2, f3] at e
  have z : (sign_setup batched compressed
      { g with CUR_ROUND := 0, errorCount := 0 }).errorCount = 0 := by
    unfold sign_setup
    cases batched <;> rfl
  rw [z, Nat.zero_add] at e
  simp only [sign_joined, run_pool, hT2, if_true]
  exact e

/-! ## Checks whose outcome does not reach the verdict -/

/-- A verification in which neither the `compressed` argument nor the
`compressed` field of the signature is set executes no `errorCount++` and
returns `CRYPTO_SUCCESS`, whatever the signature holds. -/
theorem uncompressed_verify_accepts (P : Primitives) (par : Params)
    (curve : CurveIsogenyStruct) (pk : List f2elm_t) (sig : Signature) (batched : Bool)
    (g : Globals) (hm : ∀ m, P.pthread_mutex_init m = 0) (hc : sig.compressed = false) :
    (isogeny_verify P par curve pk sig batched false g).Status = CRYPTO_SUCCESS := by
  by_cases hT : 0 < g.NUM_THREADS
  swap
  · rw [(isogeny_verify_run P par curve pk _ batched false g hm).2,
      verify_joined_errorCount_idle P par curve pk _ batched false g hT]
    rfl
  rw [(isogeny_verify_verdict P par curve pk _ batched false g hm hT).1]
  intro r _
  unfold round_errors
  split
  · rfl
  · simp [bit1_point, verify_params, hc]

/-- A round whose challenge bit is 0 never executes an `errorCount++`. -/
theorem bit0_round_counts_nothing (P : Primitives) (par : Params)
    (tpv : thread_params_verify) (r : Nat) (g : Globals)
    (hb : challenge_bit tpv.cHash r = 0) :
    (verify_round P par tpv r g).1.errorCount = g.errorCount := by
  rw [(verify_round_flags P par tpv r g).2.2]
  unfold round_errors
  rw [if_pos hb]
  rfl

/-- The verdict does not depend on the tripling or on the zero test: with
`xTPL` and `is_felm_zero` replaced by any other functions, `isogeny_verify`
returns the same status and leaves the same globals. -/
theorem verdict_ignores_tripling (P : Primitives) (par : Params) (curve : CurveIsogenyStruct)
    (pk : List f2elm_t) (sig : Signature) (batched compressed : Bool) (g : Globals)
    (x : point_proj → f2elm_t → f2elm_t → point_proj) (z : Bytes → Bool) :
    (isogeny_verify { P with xTPL := x, is_felm_zero := z } par curve pk sig batched compressed
      g).Status = (isogeny_verify P par curve pk sig batched compressed g).Status ∧
    (isogeny_verify { P with xTPL := x, is_felm_zero := z } par curve pk sig batched compressed
      g).globals = (isogeny_verify P par curve pk sig batched compressed g).globals := by
  have hf : (fun r st => (verify_round { P with xTPL := x, is_felm_zero := z } par
        (verify_params { P with xTPL := x, is_felm_zero := z } par curve pk sig compressed)
        r st).1) =
      (fun r st => (verify_round P par (verify_params P par curve pk sig compressed) r st).1) := by
    funext r st
    rw [verify_round_fst, verify_round_fst]
    rfl
  have hj : verify_joined { P with xTPL := x, is_felm_zero := z } par curve pk sig batched
      compressed g = verify_joined P par curve pk sig batched compressed g := by
    unfold verify_joined
    simp only [hf]
    rfl
  unfold isogeny_verify
  simp only [hj]
  exact ⟨rfl, rfl⟩

/-- C3 (the code at the failing input). In the uncompressed example
signature with `Randoms[0]` replaced, round 0 has challenge bit 0 and ends
with `verified = false`, yet `isogeny_verify` returns `CRYPTO_SUCCESS`; with
`psiS[6]` replaced instead, round 6 has challenge bit 1 and ends with
`verified = false`, yet `isogeny_verify` returns `CRYPTO_SUCCESS`. -/
theorem verdict_ignores_mismatch :
    challenge_bit (verify_cHash toy_primitives toy_params toy_curve sig_bad_round0) 0 = 0 ∧
    (toy_round (toy_PublicKey [4]) sig_bad_round0 false false 0).verified = false ∧
    toy_verify (toy_PublicKey [4]) sig_bad_round0 false false = CRYPTO_SUCCESS ∧
    challenge_bit (verify_cHash toy_primitives toy_params toy_curve sig_bad_round6) 6 ≠ 0 ∧
    (toy_round (toy_PublicKey [4]) sig_bad_round6 false false 6).verified = false ∧
    toy_verify (toy_PublicKey [4]) sig_bad_round6 false false = CRYPTO_SUCCESS := by
  refine ⟨by decide, by decide, by decide, by decide, by decide, by decide⟩

/-- C4 (the code at the failing input). In the uncompressed example
signature, accepted as signed, with `Randoms[3] = [8]` replaced by
`Randoms[3] | 1 = [9]`, round 3 has challenge bit 0 and the parity test
fires, yet `isogeny_verify` returns `CRYPTO_SUCCESS`. -/
theorem parity_check_ignored :
    toy_verify (toy_PublicKey [4]) (toy_signed [4] false).sig false false = CRYPTO_SUCCESS ∧
    (toy_signed [4] false).sig.Randoms 3 = [8] ∧
    sig_odd_random.Randoms 3 = [9] ∧
    challenge_bit (verify_cHash toy_primitives toy_params toy_curve sig_odd_random) 3 = 0 ∧
    (toy_round (toy_PublicKey [4]) sig_odd_random false false 3).oddRandom = true ∧
    toy_verify (toy_PublicKey [4]) sig_odd_random false false = CRYPTO_SUCCESS := by
  refine ⟨by decide, by decide, by decide, by decide, by decide, by decide⟩

/-- C5 (the code at the failing input). In the compressed example signature
made with the secret `[5]`, round 3 has challenge bit 1, the decompressed
point reaches `Z = 0` at the first tripling (the loop is left at `t = 0`)
and the shared secret is reproduced, and `isogeny_verify` returns
`CRYPTO_SUCCESS`. -/
theorem order_check_ignored :
    challenge_bit (verify_cHash toy_primitives toy_params toy_curve (toy_signed [5] true).sig) 3
      ≠ 0 ∧
    (toy_round (toy_PublicKey [5]) (toy_signed [5] true).sig false true 3).orderBreak
      = some 0 ∧
    (toy_round (toy_PublicKey [5]) (toy_signed [5] true).sig false true 3).verified = true ∧
    toy_verify (toy_PublicKey [5]) (toy_signed [5] true).sig false true = CRYPTO_SUCCESS := by
  refine ⟨by decide, by decide, by decide, by decide⟩

/-- C8 (the code at the failing input). With primitives whose
`KeyGeneration_A` and `SecretAgreement_B` report a failure in every round,
`isogeny_sign` returns `CRYPTO_SUCCESS` with `errorCount = 0`, compressed or
not; with primitives whose `compressPsiS` reports a failure in every round
it returns `CRYPTO_SUCCESS` with `errorCount = 8`. -/
theorem sign_failures_not_counted :
    (sign_keygen failing_primitives (sign_params toy_curve [4] (toy_PublicKey [4]) false)
      toy_rng 0 false).1 = CRYPTO_ERROR_INVALID_PARAMETER ∧
    (sign_agreement failing_primitives (sign_params toy_curve [4] (toy_PublicKey [4]) false)
      toy_rng 0 false false).1 = CRYPTO_ERROR_INVALID_PARAMETER ∧
    (isogeny_sign failing_primitives toy_params toy_curve [4] (toy_PublicKey [4])
      empty_signature false false toy_rng Globals.initial).Status = CRYPTO_SUCCESS ∧
    (isogeny_sign failing_primitives toy_params toy_curve [4] (toy_PublicKey [4])
      empty_signature false false toy_rng Globals.initial).globals.errorCount = 0 ∧
    (isogeny_sign failing_primitives toy_params toy_curve [4] (toy_PublicKey [4])
      empty_signature false true toy_rng Globals.initial).globals.errorCount = 0 ∧
    (isogeny_sign failing_compress_primitives toy_params toy_curve [4] (toy_PublicKey [4])
      empty_signature false true toy_rng Globals.initial).Status = CRYPTO_SUCCESS ∧
    (isogeny_sign failing_compress_primitives toy_params toy_curve [4] (toy_PublicKey [4])
      empty_signature false true toy_rng Globals.initial).globals.errorCount = 8 := by
  refine ⟨by decide, by decide, by decide, by decide, by decide, by decide, by decide⟩

/-! ## Curve used by the order check -/

/-- The final `triple` of the tripling loop is obtained by applying `xTPL`
successively with the `A` and `C` of the logged calls. -/
theorem tripling_loop_calls (P : Primitives) (par : Params) (A C : f2elm_t) (n t : Nat)
    (T : point_proj) :
    (tripling_loop P par A C n t T).1 =
      (tripling_calls P par A C n T).foldl (fun acc c => P.xTPL acc c.2.1 c.2.2) T := by
  induction n generalizing t T with
  | zero => rfl
  | succ n ih =>
    unfold tripling_loop tripling_calls
    simp only [List.foldl_cons]
    by_cases hz : Z_is_zero P par (P.xTPL T A C) = true
    · simp [hz]
    · simp only [hz]
      exact ih (t + 1) (P.xTPL T A C)

/-- Every call of the tripling loop receives the loop's `A` and `C`; the loop
makes at most `n` calls, and at least one when `n` is positive. -/
theorem tripling_calls_args (P : Primitives) (par : Params) (A C : f2elm_t) (n : Nat)
    (T : point_proj) :
    (∀ c, c ∈ tripling_calls P par A C n T → c.2.1 = A ∧ c.2.2 = C) ∧
    (tripling_calls P par A C n T).length ≤ n ∧
    (0 < n → 0 < (tripling_calls P par A C n T).length) := by
  induction n generalizing T with
  | zero => simp [tripling_calls]
  | succ n ih =>
    obtain ⟨i1, i2, _⟩ := ih (P.xTPL T A C)
    unfold tripling_calls
    by_cases hz : Z_is_zero P par (P.xTPL T A C) = true
    · simp [hz]
    · simp only [hz]
      refine ⟨?_, ?_, ?_⟩
      · intro c hc
        simp only [Bool.false_eq_true, if_false, List.mem_cons] at hc
        rcases hc with hc | hc
        · rw [hc]; exact ⟨rfl, rfl⟩
        · exact i1 c hc
      · simp only [Bool.false_eq_true, if_false, List.length_cons]
        omega
      · intro _
        simp

/-- In the bit-1 branch of every round, each tripling is called with
`A = to_fp2mont(PublicKey[0])` and `C = (CurveIsogeny->C, 0)`, whatever
`Commitments1[r]` holds; there are between one and 238 triplings, and the
final `triple` of the loop is their successive application. -/
theorem bit1_triplings_use_public_key (P : Primitives) (par : Params)
    (tpv : thread_params_verify) (r : Nat) (bD : Bool) :
    (∀ c, c ∈ bit1_tripling_calls P par tpv r bD →
      c.2.1 = P.to_fp2mont (tpv.PublicKey.headD []) ∧
      c.2.2 = tpv.CurveIsogeny.C ++ zeros par.sizeof_felm_t) ∧
    0 < (bit1_tripling_calls P par tpv r bD).length ∧
    (bit1_tripling_calls P par tpv r bD).length ≤ 238 ∧
    (bit1_order_loop P par tpv r bD).1 =
      (bit1_tripling_calls P par tpv r bD).foldl (fun acc c => P.xTPL acc c.2.1 c.2.2)
        (bit1_point P par tpv r bD).2.1 := by
  obtain ⟨h1, h2, h3⟩ := tripling_calls_args P par (P.to_fp2mont (tpv.PublicKey.headD []))
    (tpv.CurveIsogeny.C ++ zeros par.sizeof_felm_t) 238 (bit1_point P par tpv r bD).2.1
  exact ⟨h1, h3 (by decide), h2, tripling_loop_calls P par _ _ 238 0 _⟩

/-- C11 (the code at the failing input). In the compressed example
signature round 6 has challenge bit 1 and `Commitments1[6] = [2, 14]`, while
`to_fp2mont(PublicKey[0]) = [1, 4]` and `CurveIsogeny->C = [1]`: the loop
makes 238 calls of `xTPL`, every one with `A = [1, 4]`, the value taken from
the public key, and `C = [1, 0]`. -/
theorem tripling_uses_public_key_curve :
    challenge_bit (verify_cHash toy_primitives toy_params toy_curve (toy_signed [4] true).sig) 6
      ≠ 0 ∧
    (toy_signed [4] true).sig.Commitments1 6 = [2, 14] ∧
    toy_primitives.to_fp2mont ((toy_PublicKey [4]).headD []) = [1, 4] ∧
    toy_curve.C = [1] ∧
    (toy_tripling_calls (toy_PublicKey [4]) (toy_signed [4] true).sig false true 6).length
      = 238 ∧
    (∀ c, c ∈ toy_tripling_calls (toy_PublicKey [4]) (toy_signed [4] true).sig false true 6 →
      c.2.1 = [1, 4] ∧ c.2.2 = [1, 0] ∧ c.2.1 ≠ (toy_signed [4] true).sig.Commitments1 6) := by
  refine ⟨by decide, by decide, by decide, by decide, by decide, by decide⟩

end SIDHSignature
